import Mathlib

/-!
# Verification of the data-sync engine and its storage adapters

Shallow embedding of the synchronization core of the `data-sync` repository:

* `SyncEngine` (`applyChanges`, `resolveConflicts`, `defaultConflictResolver`);
* `MemoryAdapter` (`getChangesSince`, `applyRecords`);
* `VersionedMemoryAdapter` (version vectors: `isSuccessor`, `hasConflict`,
  `resolveConflict`, `applyRecords`, `getChangesSince`);
* `ChangeTrackingAdapter` (change table, `trackChange`/`pruneChangeTable`,
  `getChangesSince`, `getChangesSincePaginated`, `getChangeHistory`).

Modelling conventions:

* Timestamps (`updatedAt`, log-entry timestamps, sync checkpoints) are ISO
  strings in the source, always compared through `new Date(_)`; `Date`
  comparison is order-isomorphic to the numeric epoch value, so timestamps
  are modelled as `Int`.
* A record's `data` payload is opaque to the engine; it is modelled as `Nat`
  (the engine only moves it around and tests record equality).
* `meta` is an open JS object of which the adapters only ever read and write
  the `versionVector` key; it is modelled as the single field
  `versionVector`, with the empty list standing for an absent vector.
* JS `Map`s keyed by record id are modelled as association lists, with
  `Map.set` semantics (`setAssoc`): updating an existing key keeps its
  position, a new key is appended — this preserves the JS iteration order.
* JS objects used as maps (version vectors) are association lists as well;
  JS guarantees their keys are pairwise distinct, which appears below as
  `Nodup` hypotheses on key lists where a theorem needs it.
* Async adapter methods have no internal concurrency; each is modelled as a
  pure state-passing function.  A thrown JS error is modelled by `Option`
  (`none` = the call threw) where a claim depends on failure.
-/

namespace DataSync

/-- A synchronized record (`Record` in `types.ts`).  `data` is the opaque
payload, `updatedAt` the LWW timestamp, `versionVector` the content of
`meta.versionVector` (empty when absent). -/
structure Rec where
  id : String
  type : String
  data : Nat
  updatedAt : Int
  versionVector : List (String × Nat)
deriving DecidableEq, Repr

/-- Version vector: device id → write counter (`VersionVector` in
`VersionedMemoryAdapter`). -/
abbrev VersionVector := List (String × Nat)

/-- Association-list read, `m.get(k)` / `obj[k]`. -/
def lookupAssoc {α : Type} (m : List (String × α)) (k : String) : Option α :=
  match m.find? (fun p => p.1 == k) with
  | some p => some p.2
  | none => none

/-- Association-list write with JS `Map.set` / property-assignment
semantics: an existing key keeps its position, a new key is appended. -/
def setAssoc {α : Type} (m : List (String × α)) (k : String) (v : α) :
    List (String × α) :=
  match m with
  | [] => [(k, v)]
  | p :: rest => if p.1 = k then (k, v) :: rest else p :: setAssoc rest k v

/-- Embeds `vector[d] || 0`: counter of device `d`, defaulting to 0 when absent. -/
def vvLookup (v : VersionVector) (d : String) : Nat :=
  match lookupAssoc v d with
  | some n => n
  | none => 0

/-- Key set of a version vector (`for (const deviceId in vector)`). -/
def vvKeys (v : VersionVector) : List String := v.map Prod.fst

/-- Embeds `versionVector[deviceId] = (versionVector[deviceId] || 0) + 1` in
`VersionedMemoryAdapter.applyRecords`. -/
def vvIncr (v : VersionVector) (d : String) : VersionVector :=
  setAssoc v d (vvLookup v d + 1)

/-- Embeds `VersionedMemoryAdapter.isSuccessor(vector1, vector2)`.  The source is a
loop over `vector2`'s keys with an early `return false` when
`vector1[d] || 0 < vector2[d]`, a flag set when some dimension is strictly
greater, and a second loop flagging keys of `vector1` absent from `vector2`
with a positive count; the early return dominates the flag, giving this
denotation. -/
def isSuccessor (vector1 vector2 : VersionVector) : Bool :=
  if vector2.any (fun p => vvLookup vector1 p.1 < p.2) then
    false
  else
    vector2.any (fun p => p.2 < vvLookup vector1 p.1)
      || vector1.any (fun p => !(vvKeys vector2).contains p.1 && decide (0 < p.2))

/-- Embeds `VersionedMemoryAdapter.hasConflict(record1, record2)`: concurrent iff
neither vector is a successor of the other. -/
def hasConflict (record1 record2 : Rec) : Bool :=
  !isSuccessor record1.versionVector record2.versionVector
    && !isSuccessor record2.versionVector record1.versionVector

/-- Embeds `SyncEngine.defaultConflictResolver(existing, incoming)`: last write
wins, ties keep `existing`. -/
def defaultConflictResolver (existing incoming : Rec) : Rec :=
  if existing.updatedAt < incoming.updatedAt then incoming else existing

/-- The successor order on version vectors as the specification words it:
`v1[d] ≥ v2[d]` for every device present in `v2`, and `v1` strictly greater
in at least one dimension, counting dimensions present only in `v1` with a
positive count.  Spec-side definition, to be compared with `isSuccessor`. -/
def specIsSuccessor (v1 v2 : VersionVector) : Prop :=
  (∀ d ∈ vvKeys v2, vvLookup v2 d ≤ vvLookup v1 d) ∧
    ((∃ d ∈ vvKeys v2, vvLookup v2 d < vvLookup v1 d) ∨
      (∃ d ∈ vvKeys v1, d ∉ vvKeys v2 ∧ 0 < vvLookup v1 d))

/-- An unresolved conflict entry of a `SyncResult`. -/
structure Conflict where
  recordId : String
  localVersion : Rec
  remoteVersion : Rec
deriving DecidableEq, Repr

/-- The `serverRecordsMap` built in `SyncEngine.resolveConflicts`:
`Map.set` per server record, later records with the same id overwriting
earlier ones. -/
def buildRecordsMap (records : List Rec) : List (String × Rec) :=
  records.foldl (fun m r => setAssoc m r.id r) []

/-- Body of the per-client-record loop of `SyncEngine.resolveConflicts`:
no server counterpart → accept the client record; a strictly newer server
counterpart → resolver output on success, a conflict entry on failure;
otherwise accept the client record. -/
def resolveStep (resolver : Rec → Rec → Option Rec)
    (serverRecordsMap : List (String × Rec))
    (acc : List Rec × List Conflict) (clientRecord : Rec) :
    List Rec × List Conflict :=
  match lookupAssoc serverRecordsMap clientRecord.id with
  | none => (acc.1 ++ [clientRecord], acc.2)
  | some serverRecord =>
    if clientRecord.updatedAt < serverRecord.updatedAt then
      match resolver serverRecord clientRecord with
      | some resolvedRecord => (acc.1 ++ [resolvedRecord], acc.2)
      | none =>
        (acc.1, acc.2 ++ [⟨clientRecord.id, clientRecord, serverRecord⟩])
    else
      (acc.1 ++ [clientRecord], acc.2)

/-- Embeds `SyncEngine.resolveConflicts(clientRecords, serverRecords)`.  The
pluggable resolver models `this.resolveConflict`; it returns `none` where
the source resolver throws or rejects. -/
def resolveConflicts (resolver : Rec → Rec → Option Rec)
    (clientRecords serverRecords : List Rec) : List Rec × List Conflict :=
  let serverRecordsMap := buildRecordsMap serverRecords
  clientRecords.foldl (resolveStep resolver serverRecordsMap) ([], [])

/-- The version of a client record that enters the applied set, as the
specification words it: no server counterpart → the client record
unchanged; a strictly newer server counterpart → the resolver's output
(nothing on resolver failure); otherwise the client record.  Spec-side
definition, to be compared with `resolveConflicts`. -/
def specAppliedVersion (resolver : Rec → Rec → Option Rec)
    (serverRecords : List Rec) (clientRecord : Rec) : Option Rec :=
  match serverRecords.find? (fun sr => sr.id == clientRecord.id) with
  | none => some clientRecord
  | some serverRecord =>
    if clientRecord.updatedAt < serverRecord.updatedAt then
      resolver serverRecord clientRecord
    else
      some clientRecord

/-- The unresolved-conflict entry a client record contributes, as the
specification words it: recorded exactly when a strictly newer server
counterpart exists and the resolver fails, naming the record id and both
versions.  Spec-side definition, to be compared with `resolveConflicts`. -/
def specConflictEntry (resolver : Rec → Rec → Option Rec)
    (serverRecords : List Rec) (clientRecord : Rec) : Option Conflict :=
  match serverRecords.find? (fun sr => sr.id == clientRecord.id) with
  | none => none
  | some serverRecord =>
    if clientRecord.updatedAt < serverRecord.updatedAt then
      match resolver serverRecord clientRecord with
      | some _ => none
      | none => some ⟨clientRecord.id, clientRecord, serverRecord⟩
    else
      none

/-- Embeds `SyncPayload` from `types.ts`.  Attachment metadata is pass-through and
never consulted by any embedded operation; it is omitted. -/
structure SyncPayload where
  records : List Rec
  deletedIds : List String
  deviceId : String
  lastSyncAt : Int
deriving DecidableEq, Repr

/-- Embeds `SyncResult` from `types.ts` (attachment list omitted as above).
`conflicts = none` models the field being absent from the JS object. -/
structure SyncResult where
  updatedRecords : List Rec
  deletedIds : List String
  syncTimestamp : Int
  conflicts : Option (List Conflict)
deriving DecidableEq, Repr

/-- One entry of the in-memory adapters' `changeLog`:
`{timestamp, recordId, deviceId}`. -/
structure LogEntry where
  timestamp : Int
  recordId : String
  deviceId : String
deriving DecidableEq, Repr

/-- Mutable state of `MemoryAdapter` and `VersionedMemoryAdapter`:
`records` (a `Map` keyed by record id), the tombstone set
`deletedRecords`, and the append-only `changeLog`.  The attachment store is
independent state never read or written by the embedded operations and is
omitted. -/
structure AdapterState where
  records : List (String × Rec)
  deletedRecords : List String
  changeLog : List LogEntry
deriving DecidableEq, Repr

/-- A freshly constructed adapter: all stores empty. -/
def AdapterState.init : AdapterState := ⟨[], [], []⟩

/-- Embeds `MemoryAdapter.getChangesSince(timestamp, deviceId)`: records updated
strictly after `timestamp` whose change log holds no entry by `deviceId`
for their id, minus logically deleted records. -/
def MemoryAdapter.getChangesSince (st : AdapterState) (timestamp : Int)
    (deviceId : String) : List Rec :=
  let records := (st.records.map Prod.snd).filter (fun record =>
    timestamp < record.updatedAt &&
      !(st.changeLog.any (fun entry =>
        entry.recordId == record.id && entry.deviceId == deviceId)))
  records.filter (fun record => !(st.deletedRecords.contains record.id))

/-- Embeds `MemoryAdapter.applyRecords(records, deviceId)`: store each record
under its id and append a change-log entry carrying the record's
`updatedAt`. -/
def MemoryAdapter.applyRecords (st : AdapterState) (records : List Rec)
    (deviceId : String) : AdapterState :=
  records.foldl
    (fun s record =>
      { s with
        records := setAssoc s.records record.id record
        changeLog := s.changeLog ++ [⟨record.updatedAt, record.id, deviceId⟩] })
    st

/-- Embeds `MemoryAdapter.deleteRecord(recordId, deviceId)`; `now` is
`getCurrentTimestamp()`. -/
def MemoryAdapter.deleteRecord (st : AdapterState) (recordId deviceId : String)
    (now : Int) : AdapterState :=
  { st with
    deletedRecords := st.deletedRecords ++ [recordId]
    records := st.records.filter (fun p => !(p.1 == recordId))
    changeLog := st.changeLog ++ [⟨now, recordId, deviceId⟩] }

/-- Embeds `SyncEngine.applyChanges(payload)` running over a `MemoryAdapter`:
read server changes since the checkpoint, resolve conflicts, write the
resolved set, and build the `SyncResult` (`now` is the engine's
`new Date().toISOString()`).  The function is total: a resolver failure
never fails the sync. -/
def applyChanges (resolver : Rec → Rec → Option Rec) (st : AdapterState)
    (payload : SyncPayload) (now : Int) : AdapterState × SyncResult :=
  let serverChanges :=
    MemoryAdapter.getChangesSince st payload.lastSyncAt payload.deviceId
  let rc := resolveConflicts resolver payload.records serverChanges
  let st' := MemoryAdapter.applyRecords st rc.1 payload.deviceId
  (st',
    { updatedRecords := serverChanges
      deletedIds := []
      syncTimestamp := now
      conflicts := if 0 < rc.2.length then some rc.2 else none })

/-- Embeds `VersionedMemoryAdapter.getChangesSince(timestamp, deviceId)`:
textually the same filter as `MemoryAdapter.getChangesSince`. -/
def VersionedMemoryAdapter.getChangesSince (st : AdapterState)
    (timestamp : Int) (deviceId : String) : List Rec :=
  let records := (st.records.map Prod.snd).filter (fun record =>
    timestamp < record.updatedAt &&
      !(st.changeLog.any (fun entry =>
        entry.recordId == record.id && entry.deviceId == deviceId)))
  records.filter (fun record => !(st.deletedRecords.contains record.id))

/-- Embeds `VersionedMemoryAdapter.resolveConflict(record1, record2)`: keep
`record1` when its timestamp is at least `record2`'s, and store the
pointwise-maximum vector.  (The `if (!record1)` null guards of the source
are unreachable in the typed embedding.) -/
def VersionedMemoryAdapter.resolveConflict (record1 record2 : Rec) : Rec :=
  let useRecord1 := record2.updatedAt ≤ record1.updatedAt
  let mergedVector := record2.versionVector.foldl
    (fun merged p => setAssoc merged p.1 (max (vvLookup merged p.1) p.2))
    record1.versionVector
  { (if useRecord1 then record1 else record2) with
    versionVector := mergedVector }

/-- One iteration of `VersionedMemoryAdapter.applyRecords`.  In the source,
`versionVector` is the stored record's own vector object (or a fresh `{}`),
mutated in place by the increment; the `existingRecord` that `hasConflict`
and `resolveConflict` then observe therefore carries the incremented vector
as well.  The embedding makes that aliasing explicit
(`existingAliased`). -/
def VersionedMemoryAdapter.applyRecord (st : AdapterState) (record : Rec)
    (deviceId : String) : AdapterState :=
  let existingRecord := lookupAssoc st.records record.id
  let versionVector :=
    match existingRecord with
    | some e => e.versionVector
    | none => []
  let incremented := vvIncr versionVector deviceId
  let versionedRecord := { record with versionVector := incremented }
  let newRecords :=
    match existingRecord with
    | some e =>
      let existingAliased := { e with versionVector := incremented }
      if hasConflict existingAliased versionedRecord then
        setAssoc st.records record.id
          (VersionedMemoryAdapter.resolveConflict existingAliased
            versionedRecord)
      else
        setAssoc st.records record.id versionedRecord
    | none => setAssoc st.records record.id versionedRecord
  { st with
    records := newRecords
    changeLog := st.changeLog ++ [⟨record.updatedAt, record.id, deviceId⟩] }

/-- Embeds `VersionedMemoryAdapter.applyRecords(records, deviceId)`. -/
def VersionedMemoryAdapter.applyRecords (st : AdapterState)
    (records : List Rec) (deviceId : String) : AdapterState :=
  records.foldl
    (fun s record => VersionedMemoryAdapter.applyRecord s record deviceId) st

/-- A sequence of `VersionedMemoryAdapter.applyRecords` calls, each writing
one record on behalf of one device, applied in order. -/
def VersionedMemoryAdapter.applyWrites (st : AdapterState)
    (writes : List (Rec × String)) : AdapterState :=
  writes.foldl
    (fun s w => VersionedMemoryAdapter.applyRecords s [w.1] w.2) st

/-- The version vector currently stored for `recordId` (empty when the
record is absent). -/
def storedVersionVector (st : AdapterState) (recordId : String) :
    VersionVector :=
  match lookupAssoc st.records recordId with
  | some r => r.versionVector
  | none => []

/-- Embeds `SyncEngine.applyChanges(payload)` running over a
`VersionedMemoryAdapter`: the same engine steps as `applyChanges`, with the
read and write calls dispatched to the versioned adapter. -/
def applyChangesVMA (resolver : Rec → Rec → Option Rec) (st : AdapterState)
    (payload : SyncPayload) (now : Int) : AdapterState × SyncResult :=
  let serverChanges :=
    VersionedMemoryAdapter.getChangesSince st payload.lastSyncAt
      payload.deviceId
  let rc := resolveConflicts resolver payload.records serverChanges
  let st' := VersionedMemoryAdapter.applyRecords st rc.1 payload.deviceId
  (st',
    { updatedRecords := serverChanges
      deletedIds := []
      syncTimestamp := now
      conflicts := if 0 < rc.2.length then some rc.2 else none })

/-- Change operation of the `ChangeTrackingAdapter` change table. -/
inductive ChangeOperation
  | create
  | update
  | delete
deriving DecidableEq, Repr

/-- One row of the `ChangeTrackingAdapter` change table. -/
structure ChangeEntry where
  recordId : String
  deviceId : String
  timestamp : Int
  operation : ChangeOperation
deriving DecidableEq, Repr

/-- State of `ChangeTrackingAdapter`: the record store, the tombstone set,
and the change table (the attachment store is again untouched and
omitted). -/
structure CTAState where
  records : List (String × Rec)
  deletedRecords : List String
  changeTable : List ChangeEntry
deriving DecidableEq, Repr

/-- A freshly constructed `ChangeTrackingAdapter`. -/
def CTAState.init : CTAState := ⟨[], [], []⟩

/-- Helper for `[...new Set(xs)]`: distinct elements in first-occurrence
order (for change entries, `Set` membership is `JSON.stringify` equality,
i.e. structural equality). -/
def dedupFirstAux {α : Type} [DecidableEq α] (seen : List α) :
    List α → List α
  | [] => []
  | a :: rest =>
    if a ∈ seen then dedupFirstAux seen rest
    else a :: dedupFirstAux (a :: seen) rest

/-- Embeds `[...new Set(xs)]` / `Array.from(new Set(xs))`. -/
def dedupFirst {α : Type} [DecidableEq α] (l : List α) : List α :=
  dedupFirstAux [] l

/-- Embeds `ChangeTrackingAdapter.getChangesSince(timestamp, deviceId)`: record
ids with a change-table entry strictly after `timestamp` not authored by
`deviceId`, deduplicated, resolved against the live store, minus deleted
records. -/
def ChangeTrackingAdapter.getChangesSince (st : CTAState) (timestamp : Int)
    (deviceId : String) : List Rec :=
  let changedRecordIds := (st.changeTable.filter (fun entry =>
    timestamp < entry.timestamp && !(entry.deviceId == deviceId))).map
      (fun entry => entry.recordId)
  let uniqueRecordIds := dedupFirst changedRecordIds
  let changedRecords :=
    uniqueRecordIds.filterMap (fun id => lookupAssoc st.records id)
  changedRecords.filter (fun record => !(st.deletedRecords.contains record.id))

/-- Descending stable sort of the change table by timestamp
(`[...changeTable].sort((a, b) => compareTimestamps(b.timestamp, a.timestamp))`;
JS `Array.prototype.sort` is stable, and the stable sort of a list under a
total preorder is unique, so stable insertion sort models it exactly). -/
def sortChangesDesc (table : List ChangeEntry) : List ChangeEntry :=
  List.insertionSort (fun a b => b.timestamp ≤ a.timestamp) table

/-- First loop of `ChangeTrackingAdapter.pruneChangeTable`: the first entry
per distinct record id of the descending-sorted table
(`Array.from(latestChanges.values())` keeps first-occurrence order). -/
def latestChangesAux (seen : List String) :
    List ChangeEntry → List ChangeEntry
  | [] => []
  | e :: rest =>
    if e.recordId ∈ seen then latestChangesAux seen rest
    else e :: latestChangesAux (e.recordId :: seen) rest

/-- Embeds `ChangeTrackingAdapter.pruneChangeTable()` with `bufferSize = 100`:
keep the latest entry per record id united with the 100 most recent entries
overall; the `Set` of `JSON.stringify` strings is structural-equality dedup
preserving insertion order (latest-per-record entries first, then the
recent-changes buffer). -/
def pruneChangeTable (table : List ChangeEntry) : List ChangeEntry :=
  let sortedChanges := sortChangesDesc table
  let latestChangesList := latestChangesAux [] sortedChanges
  let recentChanges := sortedChanges.take 100
  dedupFirst (latestChangesList ++ recentChanges)

/-- Embeds `ChangeTrackingAdapter.trackChange(recordId, deviceId, timestamp,
operation)`: append to the change table, then prune. -/
def ChangeTrackingAdapter.trackChange (st : CTAState)
    (recordId deviceId : String) (timestamp : Int)
    (operation : ChangeOperation) : CTAState :=
  { st with
    changeTable := pruneChangeTable
      (st.changeTable ++ [⟨recordId, deviceId, timestamp, operation⟩]) }

/-- Embeds `ChangeTrackingAdapter.applyRecords(records, deviceId)`. -/
def ChangeTrackingAdapter.applyRecords (st : CTAState) (records : List Rec)
    (deviceId : String) : CTAState :=
  records.foldl
    (fun s record =>
      let operation : ChangeOperation :=
        match lookupAssoc s.records record.id with
        | some _ => ChangeOperation.update
        | none => ChangeOperation.create
      ChangeTrackingAdapter.trackChange
        { s with records := setAssoc s.records record.id record }
        record.id deviceId record.updatedAt operation)
    st

/-- Embeds `ChangeTrackingAdapter.deleteRecord(recordId, deviceId)`; `now` is
`getCurrentTimestamp()`. -/
def ChangeTrackingAdapter.deleteRecord (st : CTAState)
    (recordId deviceId : String) (now : Int) : CTAState :=
  ChangeTrackingAdapter.trackChange
    { st with
      deletedRecords := st.deletedRecords ++ [recordId]
      records := st.records.filter (fun p => !(p.1 == recordId)) }
    recordId deviceId now ChangeOperation.delete

/-- Embeds `ChangeTrackingAdapter.getChangeHistory(recordId)`: the record's
entries, oldest first (ascending stable sort by timestamp). -/
def ChangeTrackingAdapter.getChangeHistory (st : CTAState)
    (recordId : String) : List ChangeEntry :=
  List.insertionSort (fun a b => a.timestamp ≤ b.timestamp)
    (st.changeTable.filter (fun entry => entry.recordId == recordId))

/-- Embeds `ChangeTrackingAdapter.getAllRecords()`. -/
def ChangeTrackingAdapter.getAllRecords (st : CTAState) : List Rec :=
  st.records.map Prod.snd

/-- Embeds `ChangeTrackingAdapter.getChangesSincePaginated(timestamp, deviceId,
limit, offset)`: `getChangesSince` followed by
`slice(offset, offset + limit)`. -/
def ChangeTrackingAdapter.getChangesSincePaginated (st : CTAState)
    (timestamp : Int) (deviceId : String) (limit offset : Nat) : List Rec :=
  let allChanges := ChangeTrackingAdapter.getChangesSince st timestamp deviceId
  (allChanges.take (offset + limit)).drop offset

instance : IsTotal ChangeEntry (fun a b => b.timestamp ≤ a.timestamp) :=
  ⟨fun a b => le_total b.timestamp a.timestamp⟩

instance : IsTrans ChangeEntry (fun a b => b.timestamp ≤ a.timestamp) :=
  ⟨fun _ _ _ h1 h2 => le_trans h2 h1⟩

lemma vvLookup_eq_of_mem {v : VersionVector} {d : String} {n : Nat}
    (hnd : (vvKeys v).Nodup) (hm : (d, n) ∈ v) : vvLookup v d = n := by
  induction v with
  | nil => cases hm
  | cons p rest ih =>
    simp only [vvKeys, List.map_cons, List.nodup_cons] at hnd
    rcases List.mem_cons.mp hm with h | h
    · subst h
      simp [vvLookup, lookupAssoc]
    · have hdk : d ∈ List.map Prod.fst rest := by
        simp only [List.mem_map]
        exact ⟨(d, n), h, rfl⟩
      have hne : p.1 ≠ d := fun he => hnd.1 (he ▸ hdk)
      have hrest : vvLookup rest d = n := ih hnd.2 h
      have hb : (p.1 == d) = false := by simpa using hne
      simp only [vvLookup, lookupAssoc, List.find?_cons, hb] at hrest ⊢
      exact hrest

lemma vvLookup_mem {v : VersionVector} {d : String}
    (h : d ∈ vvKeys v) : (d, vvLookup v d) ∈ v := by
  induction v with
  | nil => simp [vvKeys] at h
  | cons p rest ih =>
    by_cases he : p.1 = d
    · subst he
      have hv : vvLookup (p :: rest) p.1 = p.2 := by
        simp [vvLookup, lookupAssoc]
      rw [hv]
      exact List.mem_cons_self _ _
    · have hd : d ∈ vvKeys rest := by
        simp only [vvKeys, List.map_cons, List.mem_cons] at h
        rcases h with h' | h'
        · exact absurd h'.symm he
        · simpa [vvKeys] using h'
      have hb : (p.1 == d) = false := by simpa using he
      have hv : vvLookup (p :: rest) d = vvLookup rest d := by
        simp [vvLookup, lookupAssoc, List.find?_cons, hb]
      rw [hv]
      exact List.mem_cons_of_mem _ (ih hd)

lemma mem_vvKeys_iff {v : VersionVector} {d : String} :
    d ∈ vvKeys v ↔ ∃ n, (d, n) ∈ v := by
  constructor
  · intro h
    exact ⟨vvLookup v d, vvLookup_mem h⟩
  · rintro ⟨n, hn⟩
    simp only [vvKeys, List.mem_map]
    exact ⟨(d, n), hn, rfl⟩

/-- C4, kernel: on vectors with JS-object keys (pairwise distinct),
`isSuccessor` decides exactly the specification's partial order. -/
lemma isSuccessor_iff_spec {v1 v2 : VersionVector}
    (h1 : (vvKeys v1).Nodup) (h2 : (vvKeys v2).Nodup) :
    isSuccessor v1 v2 = true ↔ specIsSuccessor v1 v2 := by
  have hval1 : ∀ p ∈ v1, vvLookup v1 p.1 = p.2 := fun p hp =>
    vvLookup_eq_of_mem h1 hp
  have hval2 : ∀ p ∈ v2, vvLookup v2 p.1 = p.2 := fun p hp =>
    vvLookup_eq_of_mem h2 hp
  have hle_iff : (¬ v2.any (fun p => vvLookup v1 p.1 < p.2) = true) ↔
      ∀ d ∈ vvKeys v2, vvLookup v2 d ≤ vvLookup v1 d := by
    simp only [List.any_eq_true, not_exists, not_and]
    constructor
    · intro h d hd
      have hm := vvLookup_mem hd
      have := h (d, vvLookup v2 d) hm
      simpa [Nat.not_lt] using this
    · intro h p hp
      have hd : p.1 ∈ vvKeys v2 := mem_vvKeys_iff.mpr ⟨p.2, hp⟩
      have := h p.1 hd
      rw [hval2 p hp] at this
      simpa [Nat.not_lt] using this
  have hstrict2_iff : (v2.any (fun p => p.2 < vvLookup v1 p.1) = true) ↔
      ∃ d ∈ vvKeys v2, vvLookup v2 d < vvLookup v1 d := by
    simp only [List.any_eq_true]
    constructor
    · rintro ⟨p, hp, hlt⟩
      refine ⟨p.1, mem_vvKeys_iff.mpr ⟨p.2, hp⟩, ?_⟩
      rw [hval2 p hp]
      simpa using hlt
    · rintro ⟨d, hd, hlt⟩
      exact ⟨(d, vvLookup v2 d), vvLookup_mem hd, by simpa using hlt⟩
  have honly1_iff :
      (v1.any (fun p => !(vvKeys v2).contains p.1 && decide (0 < p.2)) = true) ↔
      ∃ d ∈ vvKeys v1, d ∉ vvKeys v2 ∧ 0 < vvLookup v1 d := by
    simp only [List.any_eq_true, Bool.and_eq_true, Bool.not_eq_true',
      decide_eq_true_eq]
    constructor
    · rintro ⟨p, hp, hnc, hpos⟩
      exact ⟨p.1, mem_vvKeys_iff.mpr ⟨p.2, hp⟩, by simpa using hnc,
        by rw [hval1 p hp]; exact hpos⟩
    · rintro ⟨d, hd, hnm, hpos⟩
      exact ⟨(d, vvLookup v1 d), vvLookup_mem hd, by simpa using hnm, hpos⟩
  constructor
  · intro h
    simp only [isSuccessor] at h
    by_cases hlt : v2.any (fun p => vvLookup v1 p.1 < p.2) = true
    · rw [if_pos hlt] at h; cases h
    · rw [if_neg hlt] at h
      rw [Bool.or_eq_true] at h
      refine ⟨hle_iff.mp hlt, ?_⟩
      rcases h with h | h
      · exact Or.inl (hstrict2_iff.mp h)
      · exact Or.inr (honly1_iff.mp h)
  · rintro ⟨hle, hstrict⟩
    have hlt : ¬ (v2.any (fun p => vvLookup v1 p.1 < p.2) = true) :=
      hle_iff.mpr hle
    simp only [isSuccessor]
    rw [if_neg hlt, Bool.or_eq_true]
    rcases hstrict with h | h
    · exact Or.inl (hstrict2_iff.mpr h)
    · exact Or.inr (honly1_iff.mpr h)

/-- C4: for all version vectors `v1`, `v2` (with JS-object keys, i.e.
pairwise-distinct device ids), `isSuccessor v1 v2` returns true iff
`v1[d]` (defaulting to 0 when absent) is at least `v2[d]` for every device
`d` present in `v2` and `v1` is strictly greater in at least one dimension,
counting dimensions present only in `v1` with a positive count; and
`hasConflict r1 r2` returns true iff neither record's vector is a successor
of the other's. -/
theorem isSuccessor_hasConflict_characterization
    (v1 v2 : VersionVector) (r1 r2 : Rec)
    (hv1 : (vvKeys v1).Nodup) (hv2 : (vvKeys v2).Nodup)
    (hr1 : (vvKeys r1.versionVector).Nodup)
    (hr2 : (vvKeys r2.versionVector).Nodup) :
    (isSuccessor v1 v2 = true ↔ specIsSuccessor v1 v2) ∧
    (hasConflict r1 r2 = true ↔
      (¬ specIsSuccessor r1.versionVector r2.versionVector ∧
        ¬ specIsSuccessor r2.versionVector r1.versionVector)) := by
  refine ⟨isSuccessor_iff_spec hv1 hv2, ?_⟩
  rw [hasConflict, Bool.and_eq_true, Bool.not_eq_true', Bool.not_eq_true']
  rw [Bool.eq_false_iff, Bool.eq_false_iff]
  rw [Ne, Ne, isSuccessor_iff_spec hr1 hr2, isSuccessor_iff_spec hr2 hr1]

/-- Witness for C4: `[a ↦ 2]` succeeds `[a ↦ 1]`, and two records with
vectors `[a ↦ 1]` and `[b ↦ 1]` are detected as concurrent. -/
theorem isSuccessor_hasConflict_characterization_witness :
    specIsSuccessor [("a", 2)] [("a", 1)] ∧
    (¬ specIsSuccessor [("a", 1)] [("b", 1)] ∧
      ¬ specIsSuccessor [("b", 1)] [("a", 1)]) :=
  ⟨((isSuccessor_hasConflict_characterization [("a", 2)] [("a", 1)]
      ⟨"r1", "t", 0, 0, [("a", 1)]⟩ ⟨"r1", "t", 1, 0, [("b", 1)]⟩
      (by decide) (by decide) (by decide) (by decide)).1).mp (by decide),
    ((isSuccessor_hasConflict_characterization [("a", 2)] [("a", 1)]
      ⟨"r1", "t", 0, 0, [("a", 1)]⟩ ⟨"r1", "t", 1, 0, [("b", 1)]⟩
      (by decide) (by decide) (by decide) (by decide)).2).mp (by decide)⟩

/-- C2: the default conflict resolver returns the version whose `updatedAt`
is strictly greater, returns `existing` on ties, and for distinct
timestamps the result is the version with the greater timestamp regardless
of which argument is `existing` and which `incoming`. -/
theorem defaultConflictResolver_lww (existing incoming : Rec) :
    (existing.updatedAt = incoming.updatedAt →
      defaultConflictResolver existing incoming = existing) ∧
    (existing.updatedAt < incoming.updatedAt →
      defaultConflictResolver existing incoming = incoming) ∧
    (incoming.updatedAt < existing.updatedAt →
      defaultConflictResolver existing incoming = existing) ∧
    (existing.updatedAt ≠ incoming.updatedAt →
      defaultConflictResolver existing incoming =
        defaultConflictResolver incoming existing ∧
      (defaultConflictResolver existing incoming).updatedAt =
        max existing.updatedAt incoming.updatedAt) := by
  refine ⟨fun h => ?_, fun h => ?_, fun h => ?_, fun h => ?_⟩
  · rw [defaultConflictResolver, if_neg (by omega)]
  · rw [defaultConflictResolver, if_pos h]
  · rw [defaultConflictResolver, if_neg (by omega)]
  · rcases lt_or_gt_of_ne h with hlt | hgt
    · constructor
      · rw [defaultConflictResolver, if_pos hlt,
          defaultConflictResolver, if_neg (by omega)]
      · rw [defaultConflictResolver, if_pos hlt]
        exact (max_eq_right (le_of_lt hlt)).symm
    · constructor
      · rw [defaultConflictResolver, if_neg (by omega),
          defaultConflictResolver, if_pos hgt]
      · rw [defaultConflictResolver, if_neg (by omega)]
        exact (max_eq_left (le_of_lt hgt)).symm

/-- Witness for C2: on records with timestamps 1 < 2 the resolver picks the
incoming version. -/
theorem defaultConflictResolver_lww_witness :
    defaultConflictResolver ⟨"r1", "t", 0, 1, []⟩ ⟨"r1", "t", 1, 2, []⟩ =
      ⟨"r1", "t", 1, 2, []⟩ :=
  (defaultConflictResolver_lww ⟨"r1", "t", 0, 1, []⟩ ⟨"r1", "t", 1, 2, []⟩).2.1
    (by decide)

lemma lookupAssoc_setAssoc {α : Type} (m : List (String × α)) (k' k : String)
    (v : α) :
    lookupAssoc (setAssoc m k' v) k =
      if k' == k then some v else lookupAssoc m k := by
  induction m with
  | nil =>
    by_cases h : k' = k
    · subst h; simp [setAssoc, lookupAssoc]
    · have hb : (k' == k) = false := by simpa using h
      simp [setAssoc, lookupAssoc, hb]
  | cons p rest ih =>
    by_cases hp : p.1 = k'
    · rw [setAssoc, if_pos hp]
      by_cases hk : k' = k
      · subst hk; simp [lookupAssoc]
      · have hb : (k' == k) = false := by simpa using hk
        have hpb : (p.1 == k) = false := by simpa [hp] using hk
        simp [lookupAssoc, List.find?_cons, hb, hpb]
    · rw [setAssoc, if_neg hp]
      by_cases hpk : p.1 = k
      · have hb : (k' == k) = false := by
          simpa using fun he => hp (hpk ▸ he).symm
        have hpb : (p.1 == k) = true := by simpa using hpk
        simp [lookupAssoc, List.find?_cons, hpb, hb]
      · have hpb : (p.1 == k) = false := by simpa using hpk
        have hlhs : lookupAssoc (p :: setAssoc rest k' v) k =
            lookupAssoc (setAssoc rest k' v) k := by
          simp [lookupAssoc, List.find?_cons, hpb]
        have hrhs : lookupAssoc (p :: rest) k = lookupAssoc rest k := by
          simp [lookupAssoc, List.find?_cons, hpb]
        rw [hlhs, hrhs, ih]

lemma lookupAssoc_foldl_set (l : List Rec) (m : List (String × Rec))
    (k : String) :
    lookupAssoc (l.foldl (fun m r => setAssoc m r.id r) m) k =
      match l.reverse.find? (fun r => r.id == k) with
      | some r => some r
      | none => lookupAssoc m k := by
  induction l generalizing m with
  | nil => simp
  | cons r rest ih =>
    rw [List.foldl_cons, ih, List.reverse_cons, List.find?_append]
    cases hf : rest.reverse.find? (fun r => r.id == k) with
    | some x => simp
    | none =>
      rw [lookupAssoc_setAssoc]
      cases hr : (r.id == k) with
      | true => simp [List.find?, hr]
      | false => simp [List.find?, hr]

lemma find?_reverse_of_nodup (l : List Rec) (k : String)
    (hnd : (l.map Rec.id).Nodup) :
    l.reverse.find? (fun r => r.id == k) = l.find? (fun r => r.id == k) := by
  induction l with
  | nil => simp
  | cons r rest ih =>
    simp only [List.map_cons, List.nodup_cons] at hnd
    rw [List.reverse_cons, List.find?_append]
    cases hk : (r.id == k) with
    | true =>
      have hkid : r.id = k := by simpa using hk
      have hnone : rest.reverse.find? (fun x => x.id == k) = none := by
        rw [List.find?_eq_none]
        intro x hx
        have hxid : x.id ∈ rest.map Rec.id :=
          List.mem_map_of_mem Rec.id (List.mem_reverse.mp hx)
        intro hxb
        have hxk : x.id = k := by simpa using hxb
        exact hnd.1 (by rw [hkid, ← hxk]; exact hxid)
      rw [hnone]
      simp [List.find?, hk]
    | false =>
      rw [ih hnd.2]
      cases hf : rest.find? (fun x => x.id == k) with
      | some x => simp [List.find?_cons, hk, hf]
      | none => simp [List.find?, List.find?_cons, hk, hf]

lemma lookup_buildRecordsMap (srs : List Rec) (k : String)
    (hnd : (srs.map Rec.id).Nodup) :
    lookupAssoc (buildRecordsMap srs) k = srs.find? (fun r => r.id == k) := by
  rw [buildRecordsMap, lookupAssoc_foldl_set, find?_reverse_of_nodup srs k hnd]
  cases srs.find? (fun r => r.id == k) with
  | some x => rfl
  | none => simp [lookupAssoc]

lemma resolveConflicts_foldl (resolver : Rec → Rec → Option Rec)
    (srs : List Rec) (hnd : (srs.map Rec.id).Nodup) :
    ∀ (crs : List Rec) (accA : List Rec) (accC : List Conflict),
      crs.foldl (resolveStep resolver (buildRecordsMap srs)) (accA, accC) =
        (accA ++ crs.filterMap (specAppliedVersion resolver srs),
          accC ++ crs.filterMap (specConflictEntry resolver srs)) := by
  intro crs
  induction crs with
  | nil => intro accA accC; simp
  | cons cr rest ih =>
    intro accA accC
    rw [List.foldl_cons]
    have hstep : resolveStep resolver (buildRecordsMap srs) (accA, accC) cr =
        (accA ++ (specAppliedVersion resolver srs cr).toList,
          accC ++ (specConflictEntry resolver srs cr).toList) := by
      have hlook := lookup_buildRecordsMap srs cr.id hnd
      cases hf : srs.find? (fun sr => sr.id == cr.id) with
      | none =>
        simp [resolveStep, specAppliedVersion, specConflictEntry, hlook, hf]
      | some sr =>
        by_cases hlt : cr.updatedAt < sr.updatedAt
        · cases hres : resolver sr cr with
          | some res =>
            simp [resolveStep, specAppliedVersion, specConflictEntry,
              hlook, hf, hlt, hres]
          | none =>
            simp [resolveStep, specAppliedVersion, specConflictEntry,
              hlook, hf, hlt, hres]
        · simp [resolveStep, specAppliedVersion, specConflictEntry,
            hlook, hf, hlt]
    rw [hstep, ih]
    rw [List.filterMap_cons, List.filterMap_cons]
    cases ha : specAppliedVersion resolver srs cr with
    | none =>
      cases hc : specConflictEntry resolver srs cr with
      | none => simp
      | some c => simp
    | some a =>
      cases hc : specConflictEntry resolver srs cr with
      | none => simp
      | some c => simp

lemma resolveConflicts_eq_filterMap (resolver : Rec → Rec → Option Rec)
    (clientRecords serverRecords : List Rec)
    (hnd : (serverRecords.map Rec.id).Nodup) :
    resolveConflicts resolver clientRecords serverRecords =
      (clientRecords.filterMap (specAppliedVersion resolver serverRecords),
        clientRecords.filterMap (specConflictEntry resolver serverRecords)) := by
  rw [resolveConflicts]
  simpa using
    resolveConflicts_foldl resolver serverRecords hnd clientRecords [] []

/-- C1: for every client batch and server-change list (with distinct server
record ids, as an adapter read returns), the applied set and the conflict
list of `resolveConflicts` are exactly the per-client-record case analysis
of the claim: no counterpart → the client record unchanged; a strictly
newer counterpart → the resolver's output, or on resolver failure a
conflict entry naming the record id and both versions and no version of
that record in the applied set; otherwise the client record. -/
theorem resolveConflicts_characterization (resolver : Rec → Rec → Option Rec)
    (clientRecords serverRecords : List Rec)
    (hnd : (serverRecords.map Rec.id).Nodup) :
    resolveConflicts resolver clientRecords serverRecords =
      (clientRecords.filterMap (specAppliedVersion resolver serverRecords),
        clientRecords.filterMap (specConflictEntry resolver serverRecords)) :=
  resolveConflicts_eq_filterMap resolver clientRecords serverRecords hnd

/-- Witness for C1: one client record, a strictly newer server counterpart,
an always-failing resolver: the applied set is empty and the one conflict
entry names the record id and both versions. -/
theorem resolveConflicts_characterization_witness :
    resolveConflicts (fun _ _ => none)
        [⟨"r1", "t", 1, 3, []⟩] [⟨"r1", "t", 2, 5, []⟩] =
      ([⟨"r1", "t", 1, 3, []⟩].filterMap
          (specAppliedVersion (fun _ _ => none) [⟨"r1", "t", 2, 5, []⟩]),
        [⟨"r1", "t", 1, 3, []⟩].filterMap
          (specConflictEntry (fun _ _ => none) [⟨"r1", "t", 2, 5, []⟩])) :=
  resolveConflicts_characterization (fun _ _ => none)
    [⟨"r1", "t", 1, 3, []⟩] [⟨"r1", "t", 2, 5, []⟩] (by decide)

/-- C6: `applyChanges` is a total function of its inputs (a resolver
failure never fails the sync); its conflict list is exactly one entry per
client record whose resolution failed, carrying the record id, the client
version and the server version; and the `conflicts` field of the returned
`SyncResult` is `some` of that list when it is non-empty and absent
(`none`) when it is empty. -/
theorem applyChanges_conflict_reporting (resolver : Rec → Rec → Option Rec)
    (st : AdapterState) (payload : SyncPayload) (now : Int)
    (hnd : ((MemoryAdapter.getChangesSince st payload.lastSyncAt
        payload.deviceId).map Rec.id).Nodup) :
    (resolveConflicts resolver payload.records
        (MemoryAdapter.getChangesSince st payload.lastSyncAt
          payload.deviceId)).2 =
      payload.records.filterMap (specConflictEntry resolver
        (MemoryAdapter.getChangesSince st payload.lastSyncAt
          payload.deviceId)) ∧
    ((applyChanges resolver st payload now).2.conflicts =
      if payload.records.filterMap (specConflictEntry resolver
          (MemoryAdapter.getChangesSince st payload.lastSyncAt
            payload.deviceId)) = []
      then none
      else some (payload.records.filterMap (specConflictEntry resolver
          (MemoryAdapter.getChangesSince st payload.lastSyncAt
            payload.deviceId)))) ∧
    ((applyChanges resolver st payload now).2.conflicts = none ↔
      payload.records.filterMap (specConflictEntry resolver
        (MemoryAdapter.getChangesSince st payload.lastSyncAt
          payload.deviceId)) = []) := by
  have hchar := resolveConflicts_eq_filterMap resolver payload.records
    (MemoryAdapter.getChangesSince st payload.lastSyncAt payload.deviceId) hnd
  have hsnd : (resolveConflicts resolver payload.records
      (MemoryAdapter.getChangesSince st payload.lastSyncAt
        payload.deviceId)).2 =
      payload.records.filterMap (specConflictEntry resolver
        (MemoryAdapter.getChangesSince st payload.lastSyncAt
          payload.deviceId)) := by
    rw [hchar]
  refine ⟨hsnd, ?_, ?_⟩
  · rw [applyChanges]
    simp only [hsnd]
    cases hl : payload.records.filterMap (specConflictEntry resolver
        (MemoryAdapter.getChangesSince st payload.lastSyncAt
          payload.deviceId)) with
    | nil => simp
    | cons c cs => simp
  · rw [applyChanges]
    simp only [hsnd]
    cases hl : payload.records.filterMap (specConflictEntry resolver
        (MemoryAdapter.getChangesSince st payload.lastSyncAt
          payload.deviceId)) with
    | nil => simp
    | cons c cs => simp

/-- Witness for C6: a failing resolver over a one-record state yields a
`conflicts` field with exactly one entry. -/
theorem applyChanges_conflict_reporting_witness :
    (resolveConflicts (fun _ _ => none)
        (⟨[⟨"r1", "t", 1, 3, []⟩], [], "A", 0⟩ : SyncPayload).records
        (MemoryAdapter.getChangesSince
          ⟨[("r1", ⟨"r1", "t", 2, 5, []⟩)], [], [⟨5, "r1", "B"⟩]⟩ 0 "A")).2 =
      [⟨"r1", ⟨"r1", "t", 1, 3, []⟩, ⟨"r1", "t", 2, 5, []⟩⟩] ∧
    (applyChanges (fun _ _ => none)
        ⟨[("r1", ⟨"r1", "t", 2, 5, []⟩)], [], [⟨5, "r1", "B"⟩]⟩
        ⟨[⟨"r1", "t", 1, 3, []⟩], [], "A", 0⟩ 9).2.conflicts =
      some [⟨"r1", ⟨"r1", "t", 1, 3, []⟩, ⟨"r1", "t", 2, 5, []⟩⟩] := by
  have h := applyChanges_conflict_reporting (fun _ _ => none)
    ⟨[("r1", ⟨"r1", "t", 2, 5, []⟩)], [], [⟨5, "r1", "B"⟩]⟩
    ⟨[⟨"r1", "t", 1, 3, []⟩], [], "A", 0⟩ 9 (by decide)
  refine ⟨?_, ?_⟩
  · rw [h.1]; decide
  · rw [h.2.1]; decide

lemma not_own_entry_of_mem_getChangesSinceMem {st : AdapterState} {t : Int}
    {d : String} {r : Rec} (hr : r ∈ MemoryAdapter.getChangesSince st t d) :
    st.changeLog.any
      (fun entry => entry.recordId == r.id && entry.deviceId == d) = false := by
  rw [MemoryAdapter.getChangesSince] at hr
  have h1 := (List.mem_filter.mp hr).1
  have h2 := (List.mem_filter.mp h1).2
  simp only [Bool.and_eq_true, Bool.not_eq_true'] at h2
  exact h2.2

lemma not_own_entry_of_mem_getChangesSinceVMA {st : AdapterState} {t : Int}
    {d : String} {r : Rec}
    (hr : r ∈ VersionedMemoryAdapter.getChangesSince st t d) :
    st.changeLog.any
      (fun entry => entry.recordId == r.id && entry.deviceId == d) = false := by
  rw [VersionedMemoryAdapter.getChangesSince] at hr
  have h1 := (List.mem_filter.mp hr).1
  have h2 := (List.mem_filter.mp h1).2
  simp only [Bool.and_eq_true, Bool.not_eq_true'] at h2
  exact h2.2

/-- C10: in `MemoryAdapter` and `VersionedMemoryAdapter`, `getChangesSince`
excludes every record for which the change log holds any entry authored by
the requesting device for that record id, regardless of the entry's
timestamp: once a device has written a record, that record is never again
returned to that device. -/
theorem getChangesSince_excludes_any_own_write (st : AdapterState) (t : Int)
    (d : String) (r : Rec)
    (h : ∃ e ∈ st.changeLog, e.recordId = r.id ∧ e.deviceId = d) :
    r ∉ MemoryAdapter.getChangesSince st t d ∧
    r ∉ VersionedMemoryAdapter.getChangesSince st t d := by
  rcases h with ⟨e, he, hid, hdev⟩
  have hany : st.changeLog.any
      (fun entry => entry.recordId == r.id && entry.deviceId == d) = true :=
    List.any_eq_true.mpr ⟨e, he, by simp [hid, hdev]⟩
  constructor
  · intro hr
    rw [not_own_entry_of_mem_getChangesSinceMem hr] at hany
    cases hany
  · intro hr
    rw [not_own_entry_of_mem_getChangesSinceVMA hr] at hany
    cases hany

/-- Witness for C10: device `A` wrote `r1` long ago (timestamp 1); even
though device `B` produced the most recent change (timestamp 9 > t = 5),
`r1` is not returned to `A`. -/
theorem getChangesSince_excludes_any_own_write_witness :
    (∃ e ∈ ([⟨1, "r1", "A"⟩, ⟨9, "r1", "B"⟩] : List LogEntry),
      e.recordId = "r1" ∧ e.deviceId = "A") ∧
    (⟨"r1", "t", 7, 9, []⟩ : Rec) ∉
      MemoryAdapter.getChangesSince
        ⟨[("r1", ⟨"r1", "t", 7, 9, []⟩)], [],
          [⟨1, "r1", "A"⟩, ⟨9, "r1", "B"⟩]⟩ 5 "A" :=
  ⟨⟨⟨1, "r1", "A"⟩, by decide, rfl, rfl⟩,
    (getChangesSince_excludes_any_own_write
      ⟨[("r1", ⟨"r1", "t", 7, 9, []⟩)], [],
        [⟨1, "r1", "A"⟩, ⟨9, "r1", "B"⟩]⟩ 5 "A" ⟨"r1", "t", 7, 9, []⟩
      ⟨⟨1, "r1", "A"⟩, by decide, rfl, rfl⟩).1⟩

/-- Counterexample to C7 as stated: device `B` has stored `r1` at
timestamp 5; device `A` syncs the same payload (its `r1` at timestamp 3,
checkpoint 0) twice with the default LWW resolver.  The first application
stores the newer server version; the second read step excludes `r1`
(device `A` now appears in its log), so the second application overwrites
the store with the older client version: the stored state after the second
application differs from the state after the first (and neither run
reports conflicts). -/
theorem applyChanges_not_idempotent_counterexample :
    lookupAssoc ((applyChanges (fun a b => some (defaultConflictResolver a b))
        (MemoryAdapter.applyRecords AdapterState.init
          [⟨"r1", "t", 2, 5, []⟩] "B")
        ⟨[⟨"r1", "t", 1, 3, []⟩], [], "A", 0⟩ 100).1).records "r1" =
      some ⟨"r1", "t", 2, 5, []⟩ ∧
    lookupAssoc ((applyChanges (fun a b => some (defaultConflictResolver a b))
        ((applyChanges (fun a b => some (defaultConflictResolver a b))
          (MemoryAdapter.applyRecords AdapterState.init
            [⟨"r1", "t", 2, 5, []⟩] "B")
          ⟨[⟨"r1", "t", 1, 3, []⟩], [], "A", 0⟩ 100).1)
        ⟨[⟨"r1", "t", 1, 3, []⟩], [], "A", 0⟩ 200).1).records "r1" =
      some ⟨"r1", "t", 1, 3, []⟩ ∧
    ((applyChanges (fun a b => some (defaultConflictResolver a b))
        ((applyChanges (fun a b => some (defaultConflictResolver a b))
          (MemoryAdapter.applyRecords AdapterState.init
            [⟨"r1", "t", 2, 5, []⟩] "B")
          ⟨[⟨"r1", "t", 1, 3, []⟩], [], "A", 0⟩ 100).1)
        ⟨[⟨"r1", "t", 1, 3, []⟩], [], "A", 0⟩ 200).1).records ≠
      ((applyChanges (fun a b => some (defaultConflictResolver a b))
        (MemoryAdapter.applyRecords AdapterState.init
          [⟨"r1", "t", 2, 5, []⟩] "B")
        ⟨[⟨"r1", "t", 1, 3, []⟩], [], "A", 0⟩ 100).1).records ∧
    ((applyChanges (fun a b => some (defaultConflictResolver a b))
        (MemoryAdapter.applyRecords AdapterState.init
          [⟨"r1", "t", 2, 5, []⟩] "B")
        ⟨[⟨"r1", "t", 1, 3, []⟩], [], "A", 0⟩ 100).2).conflicts = none := by
  decide

lemma lookup_buildRecordsMap_some {srs : List Rec} {k : String} {sr : Rec}
    (h : lookupAssoc (buildRecordsMap srs) k = some sr) :
    sr ∈ srs ∧ sr.id = k := by
  rw [buildRecordsMap, lookupAssoc_foldl_set] at h
  cases hf : srs.reverse.find? (fun r => r.id == k) with
  | none => rw [hf] at h; simp [lookupAssoc] at h
  | some x =>
    rw [hf] at h
    have hx : x = sr := by
      simpa using h
    subst hx
    refine ⟨List.mem_reverse.mp (List.mem_of_find?_eq_some hf), ?_⟩
    have := List.find?_some hf
    simpa using this

lemma resolveConflicts_foldl_accept (resolver : Rec → Rec → Option Rec)
    {srs : List Rec} :
    ∀ (crs : List Rec),
      (∀ cr ∈ crs, ∀ sr ∈ srs, sr.id = cr.id →
        sr.updatedAt ≤ cr.updatedAt) →
      ∀ (accA : List Rec) (accC : List Conflict),
        crs.foldl (resolveStep resolver (buildRecordsMap srs)) (accA, accC) =
          (accA ++ crs, accC) := by
  intro crs
  induction crs with
  | nil => intro _ accA accC; simp
  | cons cr rest ih =>
    intro h accA accC
    rw [List.foldl_cons]
    have hstep : resolveStep resolver (buildRecordsMap srs) (accA, accC) cr =
        (accA ++ [cr], accC) := by
      cases hlook : lookupAssoc (buildRecordsMap srs) cr.id with
      | none => simp [resolveStep, hlook]
      | some sr =>
        rcases lookup_buildRecordsMap_some hlook with ⟨hmem, hid⟩
        have hle := h cr (List.mem_cons_self _ _) sr hmem hid
        have hnlt : ¬ (cr.updatedAt < sr.updatedAt) := not_lt.mpr hle
        simp [resolveStep, hlook, hnlt]
    rw [hstep, ih (fun c hc => h c (List.mem_cons_of_mem _ hc)) (accA ++ [cr])
      accC]
    simp

lemma resolveConflicts_accept_all (resolver : Rec → Rec → Option Rec)
    {crs srs : List Rec}
    (h : ∀ cr ∈ crs, ∀ sr ∈ srs, sr.id = cr.id →
      sr.updatedAt ≤ cr.updatedAt) :
    resolveConflicts resolver crs srs = (crs, []) := by
  rw [resolveConflicts]
  simpa using resolveConflicts_foldl_accept resolver crs h [] []

lemma applyRecordsMem_state (crs : List Rec) (d : String) :
    ∀ st : AdapterState,
      (MemoryAdapter.applyRecords st crs d).records =
        crs.foldl (fun m r => setAssoc m r.id r) st.records ∧
      (MemoryAdapter.applyRecords st crs d).deletedRecords =
        st.deletedRecords ∧
      (MemoryAdapter.applyRecords st crs d).changeLog =
        st.changeLog ++ crs.map (fun r => ⟨r.updatedAt, r.id, d⟩) := by
  induction crs with
  | nil => intro st; simp [MemoryAdapter.applyRecords]
  | cons r rest ih =>
    intro st
    have hdef : MemoryAdapter.applyRecords st (r :: rest) d =
        MemoryAdapter.applyRecords
          { st with
            records := setAssoc st.records r.id r
            changeLog := st.changeLog ++ [⟨r.updatedAt, r.id, d⟩] }
          rest d := by
      rw [MemoryAdapter.applyRecords, MemoryAdapter.applyRecords,
        List.foldl_cons]
    rw [hdef]
    rcases ih { st with
      records := setAssoc st.records r.id r
      changeLog := st.changeLog ++ [⟨r.updatedAt, r.id, d⟩] } with ⟨h1, h2, h3⟩
    refine ⟨?_, ?_, ?_⟩
    · rw [h1, List.foldl_cons]
    · rw [h2]
    · rw [h3, List.map_cons, List.append_assoc]
      rfl

lemma find?_id_of_mem_nodup {l : List Rec} {cr : Rec}
    (hnd : (l.map Rec.id).Nodup) (hm : cr ∈ l) :
    l.find? (fun r => r.id == cr.id) = some cr := by
  induction l with
  | nil => cases hm
  | cons r rest ih =>
    simp only [List.map_cons, List.nodup_cons] at hnd
    rcases List.mem_cons.mp hm with h | h
    · subst h
      simp [List.find?_cons]
    · have hne : r.id ≠ cr.id := by
        intro he
        exact hnd.1 (he ▸ List.mem_map_of_mem Rec.id h)
      have hb : (r.id == cr.id) = false := by simpa using hne
      simp only [List.find?_cons, hb]
      exact ih hnd.2 h

lemma setAssoc_eq_of_lookup {α : Type} {m : List (String × α)} {k : String}
    {v : α} (h : lookupAssoc m k = some v) : setAssoc m k v = m := by
  induction m with
  | nil => simp [lookupAssoc] at h
  | cons p rest ih =>
    by_cases hp : p.1 = k
    · have hb : (p.1 == k) = true := by simpa using hp
      have hv : p.2 = v := by
        simpa [lookupAssoc, List.find?_cons, hb] using h
      rw [setAssoc, if_pos hp, ← hp, ← hv]
    · have hb : (p.1 == k) = false := by simpa using hp
      have hrest : lookupAssoc rest k = some v := by
        simpa [lookupAssoc, List.find?_cons, hb] using h
      rw [setAssoc, if_neg hp, ih hrest]

lemma foldl_set_fixed {M : List (String × Rec)} :
    ∀ {crs : List Rec}, (∀ r ∈ crs, lookupAssoc M r.id = some r) →
      crs.foldl (fun m r => setAssoc m r.id r) M = M := by
  intro crs
  induction crs with
  | nil => intro _; rfl
  | cons r rest ih =>
    intro h
    rw [List.foldl_cons, setAssoc_eq_of_lookup (h r (List.mem_cons_self _ _))]
    exact ih (fun x hx => h x (List.mem_cons_of_mem _ hx))

lemma lookup_foldl_set_self {crs : List Rec} {cr : Rec}
    (M : List (String × Rec)) (hnd : (crs.map Rec.id).Nodup) (hm : cr ∈ crs) :
    lookupAssoc (crs.foldl (fun m r => setAssoc m r.id r) M) cr.id =
      some cr := by
  rw [lookupAssoc_foldl_set]
  have hndr : (crs.reverse.map Rec.id).Nodup := by
    rw [List.map_reverse]
    exact List.nodup_reverse.mpr hnd
  rw [find?_id_of_mem_nodup hndr (List.mem_reverse.mpr hm)]


lemma mem_dedupFirstAux {α : Type} [DecidableEq α] :
    ∀ (l seen : List α) (x : α),
      x ∈ dedupFirstAux seen l ↔ (x ∈ l ∧ x ∉ seen) := by
  intro l
  induction l with
  | nil => intro seen x; simp [dedupFirstAux]
  | cons a rest ih =>
    intro seen x
    by_cases ha : a ∈ seen
    · rw [dedupFirstAux, if_pos ha, ih]
      constructor
      · rintro ⟨hx, hns⟩
        exact ⟨List.mem_cons_of_mem _ hx, hns⟩
      · rintro ⟨hx, hns⟩
        rcases List.mem_cons.mp hx with h | h
        · exact absurd (h ▸ ha) hns
        · exact ⟨h, hns⟩
    · rw [dedupFirstAux, if_neg ha]
      constructor
      · intro hx
        rcases List.mem_cons.mp hx with h | h
        · exact ⟨h ▸ List.mem_cons_self _ _, h ▸ ha⟩
        · rcases (ih _ _).mp h with ⟨h1, h2⟩
          exact ⟨List.mem_cons_of_mem _ h1,
            fun hs => h2 (List.mem_cons_of_mem _ hs)⟩
      · rintro ⟨hx, hns⟩
        rcases List.mem_cons.mp hx with h | h
        · exact h ▸ List.mem_cons_self _ _
        · by_cases hxa : x = a
          · exact hxa ▸ List.mem_cons_self _ _
          · exact List.mem_cons_of_mem _ ((ih _ _).mpr
              ⟨h, fun hs => (List.mem_cons.mp hs).elim hxa hns⟩)

lemma nodup_dedupFirstAux {α : Type} [DecidableEq α] :
    ∀ (l seen : List α), (dedupFirstAux seen l).Nodup := by
  intro l
  induction l with
  | nil => intro seen; simp [dedupFirstAux]
  | cons a rest ih =>
    intro seen
    by_cases ha : a ∈ seen
    · rw [dedupFirstAux, if_pos ha]
      exact ih seen
    · rw [dedupFirstAux, if_neg ha]
      refine List.nodup_cons.mpr ⟨?_, ih _⟩
      intro hmem
      exact ((mem_dedupFirstAux _ _ _).mp hmem).2 (List.mem_cons_self _ _)

lemma mem_dedupFirst {α : Type} [DecidableEq α] {l : List α} {x : α} :
    x ∈ dedupFirst l ↔ x ∈ l := by
  rw [dedupFirst, mem_dedupFirstAux]
  simp

lemma nodup_dedupFirst {α : Type} [DecidableEq α] (l : List α) :
    (dedupFirst l).Nodup :=
  nodup_dedupFirstAux l []

lemma lookupAssoc_some_mem {α : Type} {m : List (String × α)} {k : String}
    {v : α} (h : lookupAssoc m k = some v) : ∃ p ∈ m, p.1 = k ∧ p.2 = v := by
  rw [lookupAssoc] at h
  cases hf : m.find? (fun p => p.1 == k) with
  | none => rw [hf] at h; cases h
  | some p =>
    rw [hf] at h
    refine ⟨p, List.mem_of_find?_eq_some hf, ?_, by simpa using h⟩
    have := List.find?_some hf
    simpa using this

lemma filterMap_lookup_ids_sublist {m : List (String × Rec)}
    (hkey : ∀ p ∈ m, (p.2).id = p.1) :
    ∀ ids : List String,
      ((ids.filterMap (fun id => lookupAssoc m id)).map Rec.id).Sublist ids := by
  intro ids
  induction ids with
  | nil => simp
  | cons id rest ih =>
    rw [List.filterMap_cons]
    cases hl : lookupAssoc m id with
    | none => exact ih.cons id
    | some r =>
      rcases lookupAssoc_some_mem hl with ⟨p, hp, hpk, hpv⟩
      have hid : r.id = id := by rw [← hpv, hkey p hp, hpk]
      rw [List.map_cons, hid]
      exact ih.cons₂ id

lemma nodup_getChangesSinceCTA {st : CTAState} {t : Int} {d : String}
    (hkey : ∀ p ∈ st.records, (p.2).id = p.1) :
    (ChangeTrackingAdapter.getChangesSince st t d).Nodup := by
  rw [ChangeTrackingAdapter.getChangesSince]
  apply List.Nodup.filter
  apply List.Nodup.of_map Rec.id
  exact ((filterMap_lookup_ids_sublist hkey _).nodup
    (nodup_dedupFirst _))

/-- C9: `getChangesSincePaginated(t, d, limit, offset)` is exactly the
slice `[offset, offset + limit)` of the materialized record list of
`getChangesSince(t, d)`; in particular (for a store whose map key is each
record's id, as every adapter write maintains) the pages
`limit = 100, offset = 0` and `limit = 100, offset = 100` are disjoint. -/
theorem getChangesSincePaginated_is_slice (st : CTAState) (t : Int)
    (d : String) (limit offset : Nat)
    (hkey : ∀ p ∈ st.records, (p.2).id = p.1) :
    ChangeTrackingAdapter.getChangesSincePaginated st t d limit offset =
      ((ChangeTrackingAdapter.getChangesSince st t d).drop offset).take
        limit ∧
    ∀ r, r ∈ ChangeTrackingAdapter.getChangesSincePaginated st t d 100 0 →
      r ∉ ChangeTrackingAdapter.getChangesSincePaginated st t d 100 100 := by
  constructor
  · rw [ChangeTrackingAdapter.getChangesSincePaginated, List.drop_take,
      Nat.add_sub_cancel_left]
  · intro r h0 h100
    have hnd : (ChangeTrackingAdapter.getChangesSince st t d).Nodup :=
      nodup_getChangesSinceCTA hkey
    have hsplit := List.take_append_drop 100
      (ChangeTrackingAdapter.getChangesSince st t d)
    have hnd2 : ((ChangeTrackingAdapter.getChangesSince st t d).take 100 ++
        (ChangeTrackingAdapter.getChangesSince st t d).drop 100).Nodup := by
      rw [hsplit]; exact hnd
    have hdisj := (List.nodup_append.mp hnd2).2.2
    have hr0 : r ∈ (ChangeTrackingAdapter.getChangesSince st t d).take 100 := by
      rw [ChangeTrackingAdapter.getChangesSincePaginated] at h0
      simpa using h0
    have hr100 : r ∈ (ChangeTrackingAdapter.getChangesSince st t d).drop
        100 := by
      rw [ChangeTrackingAdapter.getChangesSincePaginated, List.drop_take,
        Nat.add_sub_cancel_left] at h100
      exact List.Sublist.mem h100 (List.take_sublist _ _)
    exact hdisj hr0 hr100

/-- Witness for C9: a two-record store; the page `offset = 0` holds one of
them and the page `offset = 100` is empty and so excludes it. -/
theorem getChangesSincePaginated_is_slice_witness :
    ChangeTrackingAdapter.getChangesSincePaginated
        ⟨[("r1", ⟨"r1", "t", 1, 4, []⟩), ("r2", ⟨"r2", "t", 2, 6, []⟩)], [],
          [⟨"r1", "B", 4, ChangeOperation.create⟩,
            ⟨"r2", "B", 6, ChangeOperation.create⟩]⟩ 0 "A" 100 0 =
      ((ChangeTrackingAdapter.getChangesSince
        ⟨[("r1", ⟨"r1", "t", 1, 4, []⟩), ("r2", ⟨"r2", "t", 2, 6, []⟩)], [],
          [⟨"r1", "B", 4, ChangeOperation.create⟩,
            ⟨"r2", "B", 6, ChangeOperation.create⟩]⟩ 0 "A").drop 0).take
        100 ∧
    (⟨"r1", "t", 1, 4, []⟩ : Rec) ∉
      ChangeTrackingAdapter.getChangesSincePaginated
        ⟨[("r1", ⟨"r1", "t", 1, 4, []⟩), ("r2", ⟨"r2", "t", 2, 6, []⟩)], [],
          [⟨"r1", "B", 4, ChangeOperation.create⟩,
            ⟨"r2", "B", 6, ChangeOperation.create⟩]⟩ 0 "A" 100 100 :=
  ⟨(getChangesSincePaginated_is_slice
      ⟨[("r1", ⟨"r1", "t", 1, 4, []⟩), ("r2", ⟨"r2", "t", 2, 6, []⟩)], [],
        [⟨"r1", "B", 4, ChangeOperation.create⟩,
          ⟨"r2", "B", 6, ChangeOperation.create⟩]⟩ 0 "A" 100 0
      (by decide)).1,
    (getChangesSincePaginated_is_slice
      ⟨[("r1", ⟨"r1", "t", 1, 4, []⟩), ("r2", ⟨"r2", "t", 2, 6, []⟩)], [],
        [⟨"r1", "B", 4, ChangeOperation.create⟩,
          ⟨"r2", "B", 6, ChangeOperation.create⟩]⟩ 0 "A" 100 100
      (by decide)).2 ⟨"r1", "t", 1, 4, []⟩ (by decide)⟩

lemma lookupAssoc_eq_of_mem {α : Type} {m : List (String × α)} {k : String}
    {v : α} (hnd : (m.map Prod.fst).Nodup) (hm : (k, v) ∈ m) :
    lookupAssoc m k = some v := by
  induction m with
  | nil => cases hm
  | cons p rest ih =>
    simp only [List.map_cons, List.nodup_cons] at hnd
    rcases List.mem_cons.mp hm with h | h
    · rw [← h]
      simp [lookupAssoc, List.find?_cons]
    · have hkm : k ∈ rest.map Prod.fst :=
        List.mem_map_of_mem Prod.fst h
      have hne : p.1 ≠ k := fun he => hnd.1 (he ▸ hkm)
      have hb : (p.1 == k) = false := by simpa using hne
      simp only [lookupAssoc, List.find?_cons, hb]
      simpa [lookupAssoc] using ih hnd.2 h

lemma mem_keys_setAssoc {α : Type} {m : List (String × α)} {k x : String}
    {v : α} (h : x ∈ (setAssoc m k v).map Prod.fst) :
    x ∈ m.map Prod.fst ∨ x = k := by
  induction m with
  | nil =>
    right
    simpa [setAssoc] using h
  | cons p rest ih =>
    by_cases hp : p.1 = k
    · rw [setAssoc, if_pos hp] at h
      simp only [List.map_cons, List.mem_cons] at h ⊢
      rcases h with h | h
      · exact Or.inr h
      · exact Or.inl (Or.inr h)
    · rw [setAssoc, if_neg hp] at h
      simp only [List.map_cons, List.mem_cons] at h ⊢
      rcases h with h | h
      · exact Or.inl (Or.inl h)
      · rcases ih h with h' | h'
        · exact Or.inl (Or.inr h')
        · exact Or.inr h'

lemma nodup_keys_setAssoc {α : Type} {m : List (String × α)} {k : String}
    {v : α} (h : (m.map Prod.fst).Nodup) :
    ((setAssoc m k v).map Prod.fst).Nodup := by
  induction m with
  | nil => simp [setAssoc]
  | cons p rest ih =>
    simp only [List.map_cons, List.nodup_cons] at h
    by_cases hp : p.1 = k
    · rw [setAssoc, if_pos hp]
      simp only [List.map_cons, List.nodup_cons]
      exact ⟨hp ▸ h.1, h.2⟩
    · rw [setAssoc, if_neg hp]
      simp only [List.map_cons, List.nodup_cons]
      refine ⟨?_, ih h.2⟩
      intro hmem
      rcases mem_keys_setAssoc hmem with h' | h'
      · exact h.1 h'
      · exact hp h'

lemma nodup_keys_vvIncr {v : VersionVector} {d : String}
    (h : (vvKeys v).Nodup) : (vvKeys (vvIncr v d)).Nodup :=
  nodup_keys_setAssoc h

lemma vvLookup_setAssoc (v : VersionVector) (k d : String) (n : Nat) :
    vvLookup (setAssoc v k n) d = if k = d then n else vvLookup v d := by
  by_cases h : k = d
  · have hb : (k == d) = true := by simpa using h
    simp [vvLookup, lookupAssoc_setAssoc, hb, h]
  · have hb : (k == d) = false := by simpa using h
    simp [vvLookup, lookupAssoc_setAssoc, hb, h]

lemma vvLookup_vvIncr (v : VersionVector) (d' d : String) :
    vvLookup (vvIncr v d') d =
      if d' = d then vvLookup v d + 1 else vvLookup v d := by
  rw [vvIncr, vvLookup_setAssoc]
  by_cases h : d' = d
  · simp [h]
  · simp [h]

lemma mergeMax_fold_self {v : VersionVector} (hnd : (vvKeys v).Nodup) :
    ∀ l : List (String × Nat), (∀ p ∈ l, p ∈ v) →
      l.foldl (fun merged p => setAssoc merged p.1
        (max (vvLookup merged p.1) p.2)) v = v := by
  intro l
  induction l with
  | nil => intro _; rfl
  | cons p rest ih =>
    intro h
    rw [List.foldl_cons]
    have hp : (p.1, p.2) ∈ v := h p (List.mem_cons_self _ _)
    have hlook : lookupAssoc v p.1 = some p.2 :=
      lookupAssoc_eq_of_mem hnd hp
    have hvl : vvLookup v p.1 = p.2 := by simp [vvLookup, hlook]
    rw [hvl, Nat.max_self, setAssoc_eq_of_lookup hlook]
    exact ih (fun q hq => h q (List.mem_cons_of_mem _ hq))

lemma storedVV_applyRecord {st : AdapterState} {r : Rec} {d rid : String}
    (hr : r.id = rid)
    (hnd : (vvKeys (storedVersionVector st rid)).Nodup) :
    storedVersionVector (VersionedMemoryAdapter.applyRecord st r d) rid =
      vvIncr (storedVersionVector st rid) d := by
  subst hr
  cases hex : lookupAssoc st.records r.id with
  | none =>
    have hbase : storedVersionVector st r.id = [] := by
      simp [storedVersionVector, hex]
    rw [hbase]
    simp [VersionedMemoryAdapter.applyRecord, hex, storedVersionVector,
      lookupAssoc_setAssoc]
  | some e =>
    have hbase : storedVersionVector st r.id = e.versionVector := by
      simp [storedVersionVector, hex]
    rw [hbase] at hnd ⊢
    have hndInc : (vvKeys (vvIncr e.versionVector d)).Nodup :=
      nodup_keys_vvIncr hnd
    have hmerge : (vvIncr e.versionVector d).foldl
        (fun merged p => setAssoc merged p.1
          (max (vvLookup merged p.1) p.2))
        (vvIncr e.versionVector d) = vvIncr e.versionVector d :=
      mergeMax_fold_self hndInc _ (fun p hp => hp)
    by_cases hc : hasConflict
        { e with versionVector := vvIncr e.versionVector d }
        { r with versionVector := vvIncr e.versionVector d } = true
    · simp [VersionedMemoryAdapter.applyRecord, hex, hc,
        VersionedMemoryAdapter.resolveConflict, storedVersionVector,
        lookupAssoc_setAssoc, hmerge]
    · simp [VersionedMemoryAdapter.applyRecord, hex, hc, storedVersionVector,
        lookupAssoc_setAssoc]

lemma storedVV_applyWrites (rid : String) :
    ∀ (writes : List (Rec × String)) (st : AdapterState),
      (∀ w ∈ writes, (w.1).id = rid) →
      (vvKeys (storedVersionVector st rid)).Nodup →
      storedVersionVector (VersionedMemoryAdapter.applyWrites st writes)
          rid =
        writes.foldl (fun v w => vvIncr v w.2)
          (storedVersionVector st rid) := by
  intro writes
  induction writes with
  | nil => intro st _ _; rfl
  | cons w rest ih =>
    intro st hall hnd
    have hid : (w.1).id = rid := hall w (List.mem_cons_self _ _)
    have happ : VersionedMemoryAdapter.applyWrites st (w :: rest) =
        VersionedMemoryAdapter.applyWrites
          (VersionedMemoryAdapter.applyRecord st w.1 w.2) rest := by
      rw [VersionedMemoryAdapter.applyWrites,
        VersionedMemoryAdapter.applyWrites, List.foldl_cons]
      rfl
    have hstep := @storedVV_applyRecord st w.1 w.2 rid hid hnd
    have hnd' : (vvKeys (storedVersionVector
        (VersionedMemoryAdapter.applyRecord st w.1 w.2) rid)).Nodup := by
      rw [hstep]
      exact nodup_keys_vvIncr hnd
    rw [happ, ih _ (fun x hx => hall x (List.mem_cons_of_mem _ hx)) hnd',
      hstep, List.foldl_cons]

lemma vvLookup_foldl_incr (d : String) :
    ∀ (l : List (Rec × String)) (base : VersionVector),
      vvLookup (l.foldl (fun v w => vvIncr v w.2) base) d =
        vvLookup base d + (l.map Prod.snd).count d := by
  intro l
  induction l with
  | nil => intro base; simp
  | cons w rest ih =>
    intro base
    rw [List.foldl_cons, ih, vvLookup_vvIncr, List.map_cons, List.count_cons]
    by_cases h : w.2 = d
    · have hb : (w.2 == d) = true := by simpa using h
      rw [if_pos h, hb]
      simp
      omega
    · have hb : (w.2 == d) = false := by simpa using h
      rw [if_neg h, hb]
      simp

/-- C3: starting from a fresh `VersionedMemoryAdapter`, for every sequence
of `applyRecords` writes to a fixed record id, after any prefix of `m`
writes the stored record's `meta.versionVector` entry for each device
equals the number of writes that device has performed so far (so the first
write of a device sets its counter to 1), and no device's entry ever
decreases as the sequence proceeds. -/
theorem versionVector_write_counting (writes : List (Rec × String))
    (rid d : String) (n m : Nat)
    (hall : ∀ w ∈ writes, (w.1).id = rid)
    (hnm : n ≤ m) :
    vvLookup (storedVersionVector
        (VersionedMemoryAdapter.applyWrites AdapterState.init
          (writes.take m)) rid) d =
      ((writes.take m).map Prod.snd).count d ∧
    vvLookup (storedVersionVector
        (VersionedMemoryAdapter.applyWrites AdapterState.init
          (writes.take n)) rid) d ≤
      vvLookup (storedVersionVector
        (VersionedMemoryAdapter.applyWrites AdapterState.init
          (writes.take m)) rid) d := by
  have hbase : storedVersionVector AdapterState.init rid = [] := rfl
  have key : ∀ k : Nat, vvLookup (storedVersionVector
      (VersionedMemoryAdapter.applyWrites AdapterState.init (writes.take k))
      rid) d = ((writes.take k).map Prod.snd).count d := by
    intro k
    rw [storedVV_applyWrites rid (writes.take k) AdapterState.init
      (fun w hw => hall w (List.mem_of_mem_take hw))
      (by rw [hbase]; exact List.nodup_nil), hbase, vvLookup_foldl_incr]
    simp [vvLookup, lookupAssoc]
  refine ⟨key m, ?_⟩
  rw [key n, key m]
  have htake : writes.take n = (writes.take m).take n := by
    rw [List.take_take, Nat.min_eq_left hnm]
  have hsub : (writes.take n).Sublist (writes.take m) := by
    rw [htake]
    exact List.take_sublist _ _
  exact List.Sublist.count_le (hsub.map Prod.snd) d

/-- Witness for C3: three writes to `r1` by devices A, B, A; after all
three the stored counter of A is 2, and it was 1 after the first. -/
theorem versionVector_write_counting_witness :
    vvLookup (storedVersionVector
        (VersionedMemoryAdapter.applyWrites AdapterState.init
          (([(⟨"r1", "t", 1, 1, []⟩, "A"), (⟨"r1", "t", 2, 2, []⟩, "B"),
            (⟨"r1", "t", 3, 3, []⟩, "A")] : List (Rec × String)).take 3))
        "r1") "A" =
      ((([(⟨"r1", "t", 1, 1, []⟩, "A"), (⟨"r1", "t", 2, 2, []⟩, "B"),
        (⟨"r1", "t", 3, 3, []⟩, "A")] : List (Rec × String)).take 3).map
          Prod.snd).count "A" :=
  (versionVector_write_counting
    [(⟨"r1", "t", 1, 1, []⟩, "A"), (⟨"r1", "t", 2, 2, []⟩, "B"),
      (⟨"r1", "t", 3, 3, []⟩, "A")] "r1" "A" 1 3 (by decide) (by decide)).1

/-- Counterexample to C5 as stated: device `B` writes `r1` (timestamp 2),
then device `A` writes `r1` (timestamp 3).  `getChangesSince(0, "A")` on
the `ChangeTrackingAdapter` still returns `r1` — because one entry after
`t = 0` (B's) is by another device — even though the most recent change
after `t` (timestamp 3) was authored by `A` itself. -/
theorem getChangesSinceCTA_device_exclusion_counterexample :
    (⟨"r1", "t", 20, 3, []⟩ : Rec) ∈
      ChangeTrackingAdapter.getChangesSince
        (ChangeTrackingAdapter.applyRecords
          (ChangeTrackingAdapter.applyRecords CTAState.init
            [⟨"r1", "t", 10, 2, []⟩] "B")
          [⟨"r1", "t", 20, 3, []⟩] "A") 0 "A" ∧
    (∃ e ∈ (ChangeTrackingAdapter.applyRecords
        (ChangeTrackingAdapter.applyRecords CTAState.init
          [⟨"r1", "t", 10, 2, []⟩] "B")
        [⟨"r1", "t", 20, 3, []⟩] "A").changeTable,
      e.recordId = "r1" ∧ 0 < e.timestamp ∧ e.deviceId = "A" ∧
      ∀ e' ∈ (ChangeTrackingAdapter.applyRecords
          (ChangeTrackingAdapter.applyRecords CTAState.init
            [⟨"r1", "t", 10, 2, []⟩] "B")
          [⟨"r1", "t", 20, 3, []⟩] "A").changeTable,
        e'.recordId = "r1" → 0 < e'.timestamp →
          e'.timestamp ≤ e.timestamp) := by
  decide

/-- C5 amended: `ChangeTrackingAdapter.getChangesSince(t, d)` returns only
records with at least one change-table entry strictly after `t` authored by
a device other than `d` (so records whose only changes since `t` were
authored by `d` are excluded) and never returns a logically deleted
record; the stronger most-recent-change exclusion does not hold for it
(see the counterexample) but does hold for `MemoryAdapter`, whose
`getChangesSince` returns no record with any `d`-authored log entry at all
and no deleted record. -/
theorem getChangesSince_exclusion_amended (stc : CTAState)
    (stm : AdapterState) (t : Int) (d : String) (r r' : Rec)
    (hkey : ∀ p ∈ stc.records, (p.2).id = p.1)
    (hc : r ∈ ChangeTrackingAdapter.getChangesSince stc t d)
    (hm : r' ∈ MemoryAdapter.getChangesSince stm t d) :
    (∃ e ∈ stc.changeTable, e.recordId = r.id ∧ t < e.timestamp ∧
      e.deviceId ≠ d) ∧
    r.id ∉ stc.deletedRecords ∧
    (∀ e ∈ stm.changeLog, ¬ (e.recordId = r'.id ∧ e.deviceId = d)) ∧
    r'.id ∉ stm.deletedRecords := by
  rw [ChangeTrackingAdapter.getChangesSince] at hc
  obtain ⟨hmem, hdel⟩ := List.mem_filter.mp hc
  obtain ⟨id, hid_mem, hlook⟩ := List.mem_filterMap.mp hmem
  obtain ⟨p, hp, hpk, hpv⟩ := lookupAssoc_some_mem hlook
  have hrid : r.id = id := by rw [← hpv, hkey p hp, hpk]
  have hid2 : id ∈ (stc.changeTable.filter (fun entry =>
      decide (t < entry.timestamp) && !(entry.deviceId == d))).map
        (fun entry => entry.recordId) := mem_dedupFirst.mp hid_mem
  obtain ⟨e, he_f, he_id⟩ := List.mem_map.mp hid2
  obtain ⟨he_t, he_cond⟩ := List.mem_filter.mp he_f
  simp only [Bool.and_eq_true, Bool.not_eq_true', decide_eq_true_eq,
    beq_eq_false_iff_ne] at he_cond
  refine ⟨⟨e, he_t, by rw [he_id, hrid], he_cond.1, he_cond.2⟩, ?_, ?_, ?_⟩
  · simpa using hdel
  · intro e he hcond
    have hany := not_own_entry_of_mem_getChangesSinceMem hm
    have : stm.changeLog.any (fun entry =>
        entry.recordId == r'.id && entry.deviceId == d) = true :=
      List.any_eq_true.mpr ⟨e, he, by simp [hcond.1, hcond.2]⟩
    rw [hany] at this
    cases this
  · rw [MemoryAdapter.getChangesSince] at hm
    have := (List.mem_filter.mp hm).2
    simpa using this

/-- Witness for amended C5: `r1` (changed by `B`) is returned to `A` by
both adapters, and the guarantees of the amended claim hold there. -/
theorem getChangesSince_exclusion_amended_witness :
    ((⟨"r1", "t", 10, 2, []⟩ : Rec) ∈
      ChangeTrackingAdapter.getChangesSince
        ⟨[("r1", ⟨"r1", "t", 10, 2, []⟩)], [],
          [⟨"r1", "B", 2, ChangeOperation.create⟩]⟩ 0 "A") ∧
    ((⟨"r1", "t", 10, 2, []⟩ : Rec) ∈
      MemoryAdapter.getChangesSince
        ⟨[("r1", ⟨"r1", "t", 10, 2, []⟩)], [], [⟨2, "r1", "B"⟩]⟩ 0 "A") ∧
    (∃ e ∈ ([⟨"r1", "B", 2, ChangeOperation.create⟩] : List ChangeEntry),
      e.recordId = "r1" ∧ (0 : Int) < e.timestamp ∧ e.deviceId ≠ "A") :=
  ⟨by decide, by decide,
    by
      have h := getChangesSince_exclusion_amended
        ⟨[("r1", ⟨"r1", "t", 10, 2, []⟩)], [],
          [⟨"r1", "B", 2, ChangeOperation.create⟩]⟩
        ⟨[("r1", ⟨"r1", "t", 10, 2, []⟩)], [], [⟨2, "r1", "B"⟩]⟩ 0 "A"
        ⟨"r1", "t", 10, 2, []⟩ ⟨"r1", "t", 10, 2, []⟩
        (by decide) (by decide) (by decide)
      exact h.1⟩

lemma sortChangesDesc_perm (table : List ChangeEntry) :
    (sortChangesDesc table).Perm table :=
  List.perm_insertionSort _ table

lemma sortChangesDesc_sorted (table : List ChangeEntry) :
    (sortChangesDesc table).Pairwise
      (fun a b => b.timestamp ≤ a.timestamp) :=
  List.sorted_insertionSort _ table

lemma mem_latestChangesAux_sub :
    ∀ (l : List ChangeEntry) (seen : List String) (x : ChangeEntry),
      x ∈ latestChangesAux seen l → x ∈ l := by
  intro l
  induction l with
  | nil => intro seen x h; cases h
  | cons e rest ih =>
    intro seen x h
    by_cases hs : e.recordId ∈ seen
    · rw [latestChangesAux, if_pos hs] at h
      exact List.mem_cons_of_mem _ (ih _ _ h)
    · rw [latestChangesAux, if_neg hs] at h
      rcases List.mem_cons.mp h with h' | h'
      · exact h' ▸ List.mem_cons_self _ _
      · exact List.mem_cons_of_mem _ (ih _ _ h')

lemma latestChangesAux_max :
    ∀ (l : List ChangeEntry) (seen : List String) (x : ChangeEntry),
      l.Pairwise (fun a b => b.timestamp ≤ a.timestamp) →
      x ∈ latestChangesAux seen l →
      x.recordId ∉ seen ∧
      ∀ y ∈ l, y.recordId = x.recordId → y.timestamp ≤ x.timestamp := by
  intro l
  induction l with
  | nil => intro seen x _ h; cases h
  | cons e rest ih =>
    intro seen x hp h
    rcases List.pairwise_cons.mp hp with ⟨hhead, hrest⟩
    by_cases hs : e.recordId ∈ seen
    · rw [latestChangesAux, if_pos hs] at h
      rcases ih _ _ hrest h with ⟨hnseen, hmax⟩
      refine ⟨hnseen, ?_⟩
      intro y hy hid
      rcases List.mem_cons.mp hy with h' | h'
      · refine absurd ?_ hnseen
        rw [← hid, h']
        exact hs
      · exact hmax y h' hid
    · rw [latestChangesAux, if_neg hs] at h
      rcases List.mem_cons.mp h with h' | h'
      · subst h'
        refine ⟨hs, ?_⟩
        intro y hy hid
        rcases List.mem_cons.mp hy with h'' | h''
        · rw [h'']
        · exact hhead y h''
      · rcases ih _ _ hrest h' with ⟨hnseen, hmax⟩
        have hne : x.recordId ≠ e.recordId := by
          intro he
          exact hnseen (he ▸ List.mem_cons_self _ _)
        refine ⟨fun hm => hnseen (List.mem_cons_of_mem _ hm), ?_⟩
        intro y hy hid
        rcases List.mem_cons.mp hy with h'' | h''
        · exact absurd (h'' ▸ hid).symm hne
        · exact hmax y h'' hid

lemma latestChangesAux_covers :
    ∀ (l : List ChangeEntry) (seen : List String) (y : ChangeEntry),
      y ∈ l → y.recordId ∉ seen →
      ∃ x ∈ latestChangesAux seen l, x.recordId = y.recordId := by
  intro l
  induction l with
  | nil => intro seen y h; cases h
  | cons e rest ih =>
    intro seen y hy hns
    by_cases hs : e.recordId ∈ seen
    · rw [latestChangesAux, if_pos hs]
      rcases List.mem_cons.mp hy with h' | h'
      · exact absurd (h' ▸ hns : e.recordId ∉ seen) (fun hf => hf hs)
      · exact ih _ _ h' hns
    · rw [latestChangesAux, if_neg hs]
      rcases List.mem_cons.mp hy with h' | h'
      · exact ⟨e, List.mem_cons_self _ _, by rw [h']⟩
      · by_cases hye : y.recordId = e.recordId
        · exact ⟨e, List.mem_cons_self _ _, hye.symm⟩
        · rcases ih (e.recordId :: seen) y h'
            (fun hm => (List.mem_cons.mp hm).elim hye hns) with ⟨x, hx, hxid⟩
          exact ⟨x, List.mem_cons_of_mem _ hx, hxid⟩

/-- C8: after every append (`trackChange`), the change table equals — as a
set — the union of the first-per-record-id entries of the
descending-sorted table (each of which carries the maximal timestamp among
its record's entries) with the 100 most recent entries overall; after the
pruning, `getChangeHistory` of any record that had an entry still contains
an entry of that record with its maximal timestamp; and the record store
read by `getAllRecords` is untouched. -/
theorem pruneChangeTable_spec (st : CTAState) (recordId deviceId : String)
    (timestamp : Int) (operation : ChangeOperation) :
    (∀ x, x ∈ (ChangeTrackingAdapter.trackChange st recordId deviceId
        timestamp operation).changeTable ↔
      (x ∈ latestChangesAux [] (sortChangesDesc (st.changeTable ++
          [⟨recordId, deviceId, timestamp, operation⟩])) ∨
        x ∈ (sortChangesDesc (st.changeTable ++
          [⟨recordId, deviceId, timestamp, operation⟩])).take 100)) ∧
    (∀ x ∈ latestChangesAux [] (sortChangesDesc (st.changeTable ++
        [⟨recordId, deviceId, timestamp, operation⟩])),
      x ∈ st.changeTable ++ [⟨recordId, deviceId, timestamp, operation⟩] ∧
      ∀ y ∈ st.changeTable ++ [⟨recordId, deviceId, timestamp, operation⟩],
        y.recordId = x.recordId → y.timestamp ≤ x.timestamp) ∧
    (∀ rid, (∃ y ∈ st.changeTable ++
        [⟨recordId, deviceId, timestamp, operation⟩], y.recordId = rid) →
      ∃ x ∈ ChangeTrackingAdapter.getChangeHistory
        (ChangeTrackingAdapter.trackChange st recordId deviceId timestamp
          operation) rid,
        ∀ y ∈ st.changeTable ++ [⟨recordId, deviceId, timestamp, operation⟩],
          y.recordId = rid → y.timestamp ≤ x.timestamp) ∧
    ChangeTrackingAdapter.getAllRecords
        (ChangeTrackingAdapter.trackChange st recordId deviceId timestamp
          operation) =
      ChangeTrackingAdapter.getAllRecords st := by
  have hmem1 : ∀ x, x ∈ (ChangeTrackingAdapter.trackChange st recordId
      deviceId timestamp operation).changeTable ↔
      (x ∈ latestChangesAux [] (sortChangesDesc (st.changeTable ++
          [⟨recordId, deviceId, timestamp, operation⟩])) ∨
        x ∈ (sortChangesDesc (st.changeTable ++
          [⟨recordId, deviceId, timestamp, operation⟩])).take 100) := by
    intro x
    rw [ChangeTrackingAdapter.trackChange]
    show x ∈ pruneChangeTable _ ↔ _
    rw [pruneChangeTable]
    rw [mem_dedupFirst, List.mem_append]
  have hmax : ∀ x ∈ latestChangesAux [] (sortChangesDesc (st.changeTable ++
      [⟨recordId, deviceId, timestamp, operation⟩])),
      x ∈ st.changeTable ++ [⟨recordId, deviceId, timestamp, operation⟩] ∧
      ∀ y ∈ st.changeTable ++ [⟨recordId, deviceId, timestamp, operation⟩],
        y.recordId = x.recordId → y.timestamp ≤ x.timestamp := by
    intro x hx
    have hsub := mem_latestChangesAux_sub _ _ _ hx
    have hxT := (sortChangesDesc_perm _).mem_iff.mp hsub
    rcases latestChangesAux_max _ _ _ (sortChangesDesc_sorted _) hx with
      ⟨_, hmx⟩
    refine ⟨hxT, ?_⟩
    intro y hy hid
    exact hmx y ((sortChangesDesc_perm _).mem_iff.mpr hy) hid
  refine ⟨hmem1, hmax, ?_, rfl⟩
  intro rid ⟨y, hy, hyid⟩
  have hyS : y ∈ sortChangesDesc (st.changeTable ++
      [⟨recordId, deviceId, timestamp, operation⟩]) :=
    (sortChangesDesc_perm _).mem_iff.mpr hy
  rcases latestChangesAux_covers _ [] y hyS (by simp) with ⟨x, hxL, hxid⟩
  have hxT' : x ∈ (ChangeTrackingAdapter.trackChange st recordId deviceId
      timestamp operation).changeTable := (hmem1 x).mpr (Or.inl hxL)
  have hxrid : x.recordId = rid := hxid.trans hyid
  have hxH : x ∈ ChangeTrackingAdapter.getChangeHistory
      (ChangeTrackingAdapter.trackChange st recordId deviceId timestamp
        operation) rid := by
    rw [ChangeTrackingAdapter.getChangeHistory]
    refine (List.perm_insertionSort _ _).mem_iff.mpr ?_
    exact List.mem_filter.mpr ⟨hxT', by simpa using hxrid⟩
  refine ⟨x, hxH, ?_⟩
  intro y' hy' hy'id
  exact (hmax x hxL).2 y' hy' (hy'id.trans hxrid.symm)

/-- Witness for C8: appending one entry to a one-entry table; the record's
history after pruning retains its maximal-timestamp entry. -/
theorem pruneChangeTable_spec_witness :
    (∃ y ∈ ([⟨"r1", "B", 2, ChangeOperation.create⟩] : List ChangeEntry) ++
      [⟨"r1", "A", 3, ChangeOperation.update⟩], y.recordId = "r1") ∧
    (∃ x ∈ ChangeTrackingAdapter.getChangeHistory
        (ChangeTrackingAdapter.trackChange
          ⟨[("r1", ⟨"r1", "t", 20, 3, []⟩)], [],
            [⟨"r1", "B", 2, ChangeOperation.create⟩]⟩ "r1" "A" 3
          ChangeOperation.update) "r1",
      ∀ y ∈ ([⟨"r1", "B", 2, ChangeOperation.create⟩] : List ChangeEntry) ++
        [⟨"r1", "A", 3, ChangeOperation.update⟩],
        y.recordId = "r1" → y.timestamp ≤ x.timestamp) :=
  ⟨⟨⟨"r1", "B", 2, ChangeOperation.create⟩, by decide, rfl⟩,
    (pruneChangeTable_spec
      ⟨[("r1", ⟨"r1", "t", 20, 3, []⟩)], [],
        [⟨"r1", "B", 2, ChangeOperation.create⟩]⟩ "r1" "A" 3
      ChangeOperation.update).2.2.1 "r1"
      ⟨⟨"r1", "B", 2, ChangeOperation.create⟩, by decide, rfl⟩⟩

lemma applyRecordVMA_records_set (st : AdapterState) (r : Rec) (d : String) :
    ∃ x, (VersionedMemoryAdapter.applyRecord st r d).records =
      setAssoc st.records r.id x := by
  cases hex : lookupAssoc st.records r.id with
  | none =>
    refine ⟨{ r with versionVector := vvIncr [] d }, ?_⟩
    simp [VersionedMemoryAdapter.applyRecord, hex]
  | some e =>
    by_cases hc : hasConflict
        { e with versionVector := vvIncr e.versionVector d }
        { r with versionVector := vvIncr e.versionVector d } = true
    · refine ⟨VersionedMemoryAdapter.resolveConflict
        { e with versionVector := vvIncr e.versionVector d }
        { r with versionVector := vvIncr e.versionVector d }, ?_⟩
      simp [VersionedMemoryAdapter.applyRecord, hex, hc]
    · refine ⟨{ r with versionVector := vvIncr e.versionVector d }, ?_⟩
      simp [VersionedMemoryAdapter.applyRecord, hex, hc]

lemma storedVV_applyRecordVMA_other {st : AdapterState} {r : Rec}
    {d rid : String} (h : r.id ≠ rid) :
    storedVersionVector (VersionedMemoryAdapter.applyRecord st r d) rid =
      storedVersionVector st rid := by
  rcases applyRecordVMA_records_set st r d with ⟨x, hx⟩
  have hb : (r.id == rid) = false := by simpa using h
  simp [storedVersionVector, hx, lookupAssoc_setAssoc, hb]

lemma storedVV_applyRecordsVMA_frame {d : String} :
    ∀ (crs : List Rec) (st : AdapterState) (rid : String),
      (∀ x ∈ crs, x.id ≠ rid) →
      storedVersionVector (VersionedMemoryAdapter.applyRecords st crs d)
          rid =
        storedVersionVector st rid := by
  intro crs
  induction crs with
  | nil => intro st rid _; rfl
  | cons r rest ih =>
    intro st rid h
    have happ : VersionedMemoryAdapter.applyRecords st (r :: rest) d =
        VersionedMemoryAdapter.applyRecords
          (VersionedMemoryAdapter.applyRecord st r d) rest d := by
      rw [VersionedMemoryAdapter.applyRecords,
        VersionedMemoryAdapter.applyRecords, List.foldl_cons]
    rw [happ, ih _ _ (fun x hx => h x (List.mem_cons_of_mem _ hx)),
      storedVV_applyRecordVMA_other (h r (List.mem_cons_self _ _))]

lemma storedVV_applyRecordsVMA {d : String} :
    ∀ (crs : List Rec) (st : AdapterState) (cr : Rec),
      (crs.map Rec.id).Nodup → cr ∈ crs →
      (vvKeys (storedVersionVector st cr.id)).Nodup →
      storedVersionVector (VersionedMemoryAdapter.applyRecords st crs d)
          cr.id =
        vvIncr (storedVersionVector st cr.id) d := by
  intro crs
  induction crs with
  | nil => intro st cr _ hm; cases hm
  | cons r rest ih =>
    intro st cr hnd hm hvv
    simp only [List.map_cons, List.nodup_cons] at hnd
    have happ : VersionedMemoryAdapter.applyRecords st (r :: rest) d =
        VersionedMemoryAdapter.applyRecords
          (VersionedMemoryAdapter.applyRecord st r d) rest d := by
      rw [VersionedMemoryAdapter.applyRecords,
        VersionedMemoryAdapter.applyRecords, List.foldl_cons]
    rcases List.mem_cons.mp hm with h | h
    · subst h
      rw [happ]
      have hstep := @storedVV_applyRecord st cr d cr.id rfl hvv
      rw [storedVV_applyRecordsVMA_frame rest _ cr.id
        (fun x hx he => hnd.1 (he ▸ List.mem_map_of_mem Rec.id hx)), hstep]
    · have hne : r.id ≠ cr.id := fun he =>
        hnd.1 (he ▸ List.mem_map_of_mem Rec.id h)
      have hother := @storedVV_applyRecordVMA_other st r d cr.id hne
      rw [happ, ih _ _ hnd.2 h (by rw [hother]; exact hvv), hother]

lemma applyRecordsVMA_state (crs : List Rec) (d : String) :
    ∀ st : AdapterState,
      (VersionedMemoryAdapter.applyRecords st crs d).deletedRecords =
        st.deletedRecords ∧
      (VersionedMemoryAdapter.applyRecords st crs d).changeLog =
        st.changeLog ++ crs.map (fun r => ⟨r.updatedAt, r.id, d⟩) := by
  induction crs with
  | nil => intro st; simp [VersionedMemoryAdapter.applyRecords]
  | cons r rest ih =>
    intro st
    have hdef : VersionedMemoryAdapter.applyRecords st (r :: rest) d =
        VersionedMemoryAdapter.applyRecords
          (VersionedMemoryAdapter.applyRecord st r d) rest d := by
      rw [VersionedMemoryAdapter.applyRecords,
        VersionedMemoryAdapter.applyRecords, List.foldl_cons]
    rw [hdef]
    rcases ih (VersionedMemoryAdapter.applyRecord st r d) with ⟨h1, h2⟩
    constructor
    · rw [h1]
      rfl
    · rw [h2, List.map_cons]
      show (st.changeLog ++ [⟨r.updatedAt, r.id, d⟩]) ++
          rest.map (fun r => ⟨r.updatedAt, r.id, d⟩) = _
      rw [List.append_assoc]
      rfl

/-- C7 amended: re-applying the same `SyncPayload` with the same
`lastSyncAt`, with distinct payload record ids, a total resolver, and no
server-side change of the first read step strictly newer than its client
counterpart, (a) over `MemoryAdapter` leaves the record store and the
tombstone set unchanged and reports no conflicts on the second
application; (b) over `VersionedMemoryAdapter` the second application
still reports no conflicts, but it increments the stored version vector's
entry for the syncing device on every payload record, so for a non-empty
payload the record store after the second application always differs from
the store after the first.  (Without the proviso the second application
can also regress a record to the older client version — see the
counterexample — and the change log grows on every application either
way.) -/
theorem applyChanges_idempotent_amended (f : Rec → Rec → Rec)
    (st : AdapterState) (payload : SyncPayload) (n1 n2 : Int)
    (hnd : (payload.records.map Rec.id).Nodup)
    (hnotnewer : ∀ cr ∈ payload.records,
      ∀ sr ∈ MemoryAdapter.getChangesSince st payload.lastSyncAt
        payload.deviceId,
        sr.id = cr.id → sr.updatedAt ≤ cr.updatedAt)
    (hnotnewerV : ∀ cr ∈ payload.records,
      ∀ sr ∈ VersionedMemoryAdapter.getChangesSince st payload.lastSyncAt
        payload.deviceId,
        sr.id = cr.id → sr.updatedAt ≤ cr.updatedAt)
    (hvv : ∀ cr ∈ payload.records,
      (vvKeys (storedVersionVector st cr.id)).Nodup) :
    ((applyChanges (fun a b => some (f a b))
        ((applyChanges (fun a b => some (f a b)) st payload n1).1)
        payload n2).1).records =
      ((applyChanges (fun a b => some (f a b)) st payload n1).1).records ∧
    ((applyChanges (fun a b => some (f a b))
        ((applyChanges (fun a b => some (f a b)) st payload n1).1)
        payload n2).1).deletedRecords =
      ((applyChanges (fun a b => some (f a b)) st payload
        n1).1).deletedRecords ∧
    ((applyChanges (fun a b => some (f a b))
        ((applyChanges (fun a b => some (f a b)) st payload n1).1)
        payload n2).2).conflicts = none ∧
    ((applyChangesVMA (fun a b => some (f a b))
        ((applyChangesVMA (fun a b => some (f a b)) st payload n1).1)
        payload n2).2).conflicts = none ∧
    (∀ cr ∈ payload.records,
      storedVersionVector
          ((applyChangesVMA (fun a b => some (f a b))
            ((applyChangesVMA (fun a b => some (f a b)) st payload n1).1)
            payload n2).1) cr.id =
        vvIncr (storedVersionVector
          ((applyChangesVMA (fun a b => some (f a b)) st payload n1).1)
          cr.id) payload.deviceId) ∧
    (payload.records ≠ [] →
      ((applyChangesVMA (fun a b => some (f a b))
          ((applyChangesVMA (fun a b => some (f a b)) st payload n1).1)
          payload n2).1).records ≠
        ((applyChangesVMA (fun a b => some (f a b)) st payload
          n1).1).records) := by
  have h1 : resolveConflicts (fun a b => some (f a b)) payload.records
      (MemoryAdapter.getChangesSince st payload.lastSyncAt
        payload.deviceId) = (payload.records, []) :=
    resolveConflicts_accept_all _ hnotnewer
  have hst1 : (applyChanges (fun a b => some (f a b)) st payload n1).1 =
      MemoryAdapter.applyRecords st payload.records payload.deviceId := by
    rw [applyChanges]
    simp only [h1]
  rcases applyRecordsMem_state payload.records payload.deviceId st with
    ⟨hrec1, hdel1, hlog1⟩
  have hdisj : ∀ cr ∈ payload.records,
      ∀ sr ∈ MemoryAdapter.getChangesSince
        (applyChanges (fun a b => some (f a b)) st payload n1).1
        payload.lastSyncAt payload.deviceId,
      sr.id = cr.id → sr.updatedAt ≤ cr.updatedAt := by
    intro cr hcr sr hsr heq
    exfalso
    have hno := not_own_entry_of_mem_getChangesSinceMem hsr
    have hmem : (⟨cr.updatedAt, cr.id, payload.deviceId⟩ : LogEntry) ∈
        ((applyChanges (fun a b => some (f a b)) st payload
          n1).1).changeLog := by
      rw [hst1, hlog1]
      refine List.mem_append_right _ ?_
      exact List.mem_map_of_mem _ hcr
    have hany : (((applyChanges (fun a b => some (f a b)) st payload
        n1).1).changeLog).any
        (fun entry => entry.recordId == sr.id &&
          entry.deviceId == payload.deviceId) = true :=
      List.any_eq_true.mpr ⟨_, hmem, by simp [heq]⟩
    rw [hno] at hany
    cases hany
  have h2 : resolveConflicts (fun a b => some (f a b)) payload.records
      (MemoryAdapter.getChangesSince
        (applyChanges (fun a b => some (f a b)) st payload n1).1
        payload.lastSyncAt payload.deviceId) = (payload.records, []) :=
    resolveConflicts_accept_all _ hdisj
  have hst2 : (applyChanges (fun a b => some (f a b))
      ((applyChanges (fun a b => some (f a b)) st payload n1).1)
      payload n2).1 =
      MemoryAdapter.applyRecords
        ((applyChanges (fun a b => some (f a b)) st payload n1).1)
        payload.records payload.deviceId := by
    rw [applyChanges]
    simp only [h2]
  rcases applyRecordsMem_state payload.records payload.deviceId
    ((applyChanges (fun a b => some (f a b)) st payload n1).1) with
    ⟨hrec2, hdel2, _⟩
  have ha1 : ((applyChanges (fun a b => some (f a b))
      ((applyChanges (fun a b => some (f a b)) st payload n1).1)
      payload n2).1).records =
      ((applyChanges (fun a b => some (f a b)) st payload n1).1).records := by
    rw [hst2, hrec2, hst1, hrec1]
    exact foldl_set_fixed (fun r hr => lookup_foldl_set_self st.records hnd hr)
  have ha2 : ((applyChanges (fun a b => some (f a b))
      ((applyChanges (fun a b => some (f a b)) st payload n1).1)
      payload n2).1).deletedRecords =
      ((applyChanges (fun a b => some (f a b)) st payload
        n1).1).deletedRecords := by
    rw [hst2, hdel2]
  have ha3 : ((applyChanges (fun a b => some (f a b))
      ((applyChanges (fun a b => some (f a b)) st payload n1).1)
      payload n2).2).conflicts = none := by
    rw [applyChanges]
    simp only [h2]
    simp
  have h1v : resolveConflicts (fun a b => some (f a b)) payload.records
      (VersionedMemoryAdapter.getChangesSince st payload.lastSyncAt
        payload.deviceId) = (payload.records, []) :=
    resolveConflicts_accept_all _ hnotnewerV
  have hst1v : (applyChangesVMA (fun a b => some (f a b)) st payload n1).1 =
      VersionedMemoryAdapter.applyRecords st payload.records
        payload.deviceId := by
    rw [applyChangesVMA]
    simp only [h1v]
  rcases applyRecordsVMA_state payload.records payload.deviceId st with
    ⟨hdel1v, hlog1v⟩
  have hdisjv : ∀ cr ∈ payload.records,
      ∀ sr ∈ VersionedMemoryAdapter.getChangesSince
        (applyChangesVMA (fun a b => some (f a b)) st payload n1).1
        payload.lastSyncAt payload.deviceId,
      sr.id = cr.id → sr.updatedAt ≤ cr.updatedAt := by
    intro cr hcr sr hsr heq
    exfalso
    have hno := not_own_entry_of_mem_getChangesSinceVMA hsr
    have hmem : (⟨cr.updatedAt, cr.id, payload.deviceId⟩ : LogEntry) ∈
        ((applyChangesVMA (fun a b => some (f a b)) st payload
          n1).1).changeLog := by
      rw [hst1v, hlog1v]
      refine List.mem_append_right _ ?_
      exact List.mem_map_of_mem _ hcr
    have hany : (((applyChangesVMA (fun a b => some (f a b)) st payload
        n1).1).changeLog).any
        (fun entry => entry.recordId == sr.id &&
          entry.deviceId == payload.deviceId) = true :=
      List.any_eq_true.mpr ⟨_, hmem, by simp [heq]⟩
    rw [hno] at hany
    cases hany
  have h2v : resolveConflicts (fun a b => some (f a b)) payload.records
      (VersionedMemoryAdapter.getChangesSince
        (applyChangesVMA (fun a b => some (f a b)) st payload n1).1
        payload.lastSyncAt payload.deviceId) = (payload.records, []) :=
    resolveConflicts_accept_all _ hdisjv
  have hst2v : (applyChangesVMA (fun a b => some (f a b))
      ((applyChangesVMA (fun a b => some (f a b)) st payload n1).1)
      payload n2).1 =
      VersionedMemoryAdapter.applyRecords
        ((applyChangesVMA (fun a b => some (f a b)) st payload n1).1)
        payload.records payload.deviceId := by
    rw [applyChangesVMA]
    simp only [h2v]
  have hb1 : ((applyChangesVMA (fun a b => some (f a b))
      ((applyChangesVMA (fun a b => some (f a b)) st payload n1).1)
      payload n2).2).conflicts = none := by
    rw [applyChangesVMA]
    simp only [h2v]
    simp
  have hb2 : ∀ cr ∈ payload.records,
      storedVersionVector
          ((applyChangesVMA (fun a b => some (f a b))
            ((applyChangesVMA (fun a b => some (f a b)) st payload n1).1)
            payload n2).1) cr.id =
        vvIncr (storedVersionVector
          ((applyChangesVMA (fun a b => some (f a b)) st payload n1).1)
          cr.id) payload.deviceId := by
    intro cr hcr
    have hvv1 : (vvKeys (storedVersionVector
        ((applyChangesVMA (fun a b => some (f a b)) st payload n1).1)
        cr.id)).Nodup := by
      rw [hst1v,
        storedVV_applyRecordsVMA payload.records st cr hnd hcr (hvv cr hcr)]
      exact nodup_keys_vvIncr (hvv cr hcr)
    rw [hst2v]
    exact storedVV_applyRecordsVMA payload.records _ cr hnd hcr hvv1
  have hb3 : payload.records ≠ [] →
      ((applyChangesVMA (fun a b => some (f a b))
          ((applyChangesVMA (fun a b => some (f a b)) st payload n1).1)
          payload n2).1).records ≠
        ((applyChangesVMA (fun a b => some (f a b)) st payload
          n1).1).records := by
    intro hne heq
    rcases List.exists_mem_of_ne_nil payload.records hne with ⟨cr, hcr⟩
    have h := hb2 cr hcr
    have heq' : storedVersionVector
        ((applyChangesVMA (fun a b => some (f a b))
          ((applyChangesVMA (fun a b => some (f a b)) st payload n1).1)
          payload n2).1) cr.id =
        storedVersionVector
          ((applyChangesVMA (fun a b => some (f a b)) st payload n1).1)
          cr.id := by
      simp only [storedVersionVector]
      rw [heq]
    rw [heq'] at h
    have hcount := congrArg (fun v => vvLookup v payload.deviceId) h
    simp [vvLookup_vvIncr] at hcount
  exact ⟨ha1, ha2, ha3, hb1, hb2, hb3⟩

/-- Witness for amended C7: an empty store, a one-record payload from
device `A`; all hypotheses hold, re-application leaves the
`MemoryAdapter` store unchanged, and the `VersionedMemoryAdapter` store
differs after the second application. -/
theorem applyChanges_idempotent_amended_witness :
    ((applyChanges (fun a b => some (defaultConflictResolver a b))
        ((applyChanges (fun a b => some (defaultConflictResolver a b))
          AdapterState.init ⟨[⟨"r1", "t", 1, 3, []⟩], [], "A", 0⟩ 100).1)
        ⟨[⟨"r1", "t", 1, 3, []⟩], [], "A", 0⟩ 200).1).records =
      ((applyChanges (fun a b => some (defaultConflictResolver a b))
        AdapterState.init
        ⟨[⟨"r1", "t", 1, 3, []⟩], [], "A", 0⟩ 100).1).records ∧
    ((applyChangesVMA (fun a b => some (defaultConflictResolver a b))
        ((applyChangesVMA (fun a b => some (defaultConflictResolver a b))
          AdapterState.init ⟨[⟨"r1", "t", 1, 3, []⟩], [], "A", 0⟩ 100).1)
        ⟨[⟨"r1", "t", 1, 3, []⟩], [], "A", 0⟩ 200).1).records ≠
      ((applyChangesVMA (fun a b => some (defaultConflictResolver a b))
        AdapterState.init
        ⟨[⟨"r1", "t", 1, 3, []⟩], [], "A", 0⟩ 100).1).records :=
  ⟨(applyChanges_idempotent_amended defaultConflictResolver AdapterState.init
      ⟨[⟨"r1", "t", 1, 3, []⟩], [], "A", 0⟩ 100 200 (by decide) (by decide)
      (by decide) (by decide)).1,
    (applyChanges_idempotent_amended defaultConflictResolver AdapterState.init
      ⟨[⟨"r1", "t", 1, 3, []⟩], [], "A", 0⟩ 100 200 (by decide) (by decide)
      (by decide) (by decide)).2.2.2.2.2 (by decide)⟩

end DataSync
